import Mathlib

set_option maxHeartbeats 1000000
set_option maxRecDepth 8000

/-!
Shallow embedding of the auto-detect-walls image pipeline.

Pixel buffers are flat RGBA byte lists (row major, four naturals per
pixel), grayscale buffers are flat byte lists with one natural per pixel.
Floating point arithmetic of the source is modelled exactly over the
rationals, except where the source evaluates transcendental functions
(Math.exp in the Gaussian kernel, Math.atan2 and Math.sqrt in the edge
detectors), which are modelled over the reals.
-/

/-- Storing a numeric value into a Uint8ClampedArray entry clamps it to the
byte range and rounds to the nearest integer, with ties going to the even
integer (ECMAScript ToUint8Clamp). -/
def toUint8Clamp {α : Type} [LinearOrderedField α] [FloorRing α] (x : α) : ℕ :=
  if x ≤ 0 then 0
  else if 255 ≤ x then 255
  else if x - (⌊x⌋ : α) < 1/2 then (⌊x⌋).toNat
  else if (1/2 : α) < x - (⌊x⌋ : α) then (⌊x⌋).toNat + 1
  else if ⌊x⌋ % 2 = 0 then (⌊x⌋).toNat else (⌊x⌋).toNat + 1

/-- Math.round: round half toward positive infinity. -/
def jsMathRound {α : Type} [LinearOrderedField α] [FloorRing α] (x : α) : ℤ :=
  ⌊x + 1/2⌋

/-- Standard luminance formula used throughout the source:
0.299 R + 0.587 G + 0.114 B. -/
def luminance (r g b : ℚ) : ℚ :=
  299/1000 * r + 587/1000 * g + 114/1000 * b

/-- Math.min(Math.max(v, lo), hi), the border clamp used by the filters. -/
def clampIdx (v lo hi : ℤ) : ℤ :=
  min (max v lo) hi

theorem clampIdx_def (v lo hi : ℤ) : clampIdx v lo hi = min (max v lo) hi := rfl

/-- Writing one fixed size chunk of output channels per pixel, in pixel
order, into a flat output buffer. -/
def buildPixels (n : ℕ) (f : ℕ → List ℕ) : List ℕ :=
  (List.range n).flatMap f

/-- convertToGrayscale from the image processing module: one byte of
luminance per pixel, length width times height.  The caller passes ImageData
whose data length is 4 * width * height. -/
def convertToGrayscale (w h : ℕ) (data : List ℕ) : List ℕ :=
  (List.range (w * h)).map fun i =>
    toUint8Clamp (luminance (data.getD (4*i) 0 : ℚ) (data.getD (4*i+1) 0 : ℚ)
      (data.getD (4*i+2) 0 : ℚ))

/-- One RGBA sample gathered by the median filter. -/
structure RGBA where
  r : ℕ
  g : ℕ
  b : ℕ
  a : ℕ
deriving DecidableEq, Repr

/-- Luminance of a gathered RGBA sample, the sort key of the median
filter. -/
def RGBA.lum (p : RGBA) : ℚ :=
  luminance (p.r : ℚ) (p.g : ℚ) (p.b : ℚ)

/-- The kernelSize by kernelSize neighborhood gathered by
applyMedianFilter, with border clamping, in row major gathering order. -/
def medianNeighborhood (w h : ℕ) (data : List ℕ) (half x y : ℕ) : List RGBA :=
  (List.range (2*half+1)).flatMap fun (ky : ℕ) =>
    (List.range (2*half+1)).map fun (kx : ℕ) =>
      let pX := (clampIdx ((x : ℤ) + kx - half) 0 ((w : ℤ) - 1)).toNat
      let pY := (clampIdx ((y : ℤ) + ky - half) 0 ((h : ℤ) - 1)).toNat
      let i := (pY * w + pX) * 4
      ⟨data.getD i 0, data.getD (i+1) 0, data.getD (i+2) 0, data.getD (i+3) 0⟩

/-- applyMedianFilter: per pixel, gather the clamped neighborhood, rank by
luminance (JavaScript sort is stable), and write the entire RGBA tuple of
the median luminance neighbor. -/
def applyMedianFilter (w h : ℕ) (data : List ℕ) (kernelSize : ℕ) : List ℕ :=
  let ks := if kernelSize % 2 = 0 then kernelSize + 1 else kernelSize
  let half := ks / 2
  buildPixels (w * h) fun idx =>
    let y := idx / w
    let x := idx % w
    let pixels := medianNeighborhood w h data half x y
    let sorted := pixels.mergeSort fun p q => decide (p.lum ≤ q.lum)
    let m := sorted.getD (sorted.length / 2) ⟨0, 0, 0, 0⟩
    [m.r, m.g, m.b, m.a]

/-- Luminance of the RGBA pixel stored at column cx, row cy of a flat
buffer. -/
def lumAt (w : ℕ) (data : List ℕ) (cx cy : ℕ) : ℚ :=
  luminance (data.getD ((cy * w + cx) * 4) 0 : ℚ)
    (data.getD ((cy * w + cx) * 4 + 1) 0 : ℚ)
    (data.getD ((cy * w + cx) * 4 + 2) 0 : ℚ)

/-- The inner double loop of applyBrightenFilter: does some sample of the
border clamped neighborhood of (x, y) have positive luminance. -/
def brightenB (w h : ℕ) (data : List ℕ) (half x y : ℕ) : Bool :=
  (List.range (2*half+1)).any fun (ky : ℕ) =>
    (List.range (2*half+1)).any fun (kx : ℕ) =>
      decide (0 < lumAt w data
        ((clampIdx ((x : ℤ) + kx - half) 0 ((w : ℤ) - 1)).toNat)
        ((clampIdx ((y : ℤ) + ky - half) 0 ((h : ℤ) - 1)).toNat))

/-- applyBrightenFilter: a pixel becomes white (255,255,255,255) when some
pixel of its border clamped kernel neighborhood has luminance strictly
greater than zero, and (0,0,0,0) otherwise. -/
def applyBrightenFilter (w h : ℕ) (data : List ℕ) (kernelSize : ℕ) : List ℕ :=
  let ks := if kernelSize % 2 = 0 then kernelSize + 1 else kernelSize
  let half := ks / 2
  buildPixels (w * h) fun idx =>
    if brightenB w h data half (idx % w) (idx / w)
    then [255, 255, 255, 255] else [0, 0, 0, 0]

/-! ## Generic lemmas about per pixel output construction -/

theorem buildPixels_succ (n : ℕ) (f : ℕ → List ℕ) :
    buildPixels (n+1) f = buildPixels n f ++ f n := by
  simp [buildPixels, List.range_succ]

theorem buildPixels_length (n : ℕ) (f : ℕ → List ℕ)
    (h4 : ∀ i < n, (f i).length = 4) :
    (buildPixels n f).length = 4 * n := by
  induction n with
  | zero => simp [buildPixels]
  | succ n ih =>
    rw [buildPixels_succ, List.length_append, ih (fun i hi => h4 i (by omega)),
      h4 n (by omega)]
    omega

theorem buildPixels_getD (n : ℕ) (f : ℕ → List ℕ) (i r d : ℕ)
    (h4 : ∀ j < n, (f j).length = 4) (hi : i < n) (hr : r < 4) :
    (buildPixels n f).getD (4*i+r) d = (f i).getD r d := by
  induction n with
  | zero => omega
  | succ n ih =>
    rw [buildPixels_succ]
    have hlen : (buildPixels n f).length = 4 * n :=
      buildPixels_length n f (fun j hj => h4 j (by omega))
    rcases Nat.lt_or_ge i n with hlt | hge
    · rw [List.getD_append _ _ _ _ (by rw [hlen]; omega)]
      exact ih (fun j hj => h4 j (by omega)) hlt
    · have hin : i = n := by omega
      subst hin
      rw [List.getD_append_right _ _ _ _ (by rw [hlen]; omega)]
      rw [hlen]
      congr 1
      omega

/-! ## Lemmas about the Uint8ClampedArray store conversion -/

theorem toUint8Clamp_le_255 {α : Type} [LinearOrderedField α] [FloorRing α]
    (x : α) : toUint8Clamp x ≤ 255 := by
  unfold toUint8Clamp
  split_ifs with h0 h255 hlt hgt hev
  · omega
  · omega
  all_goals
    have hfl : ⌊x⌋ ≤ 254 := by
      have : ⌊x⌋ < 255 := by
        have := Int.floor_le x
        have hx : x < 255 := lt_of_not_le h255
        exact_mod_cast lt_of_le_of_lt (Int.floor_le_floor (le_refl x)) (by
          have : (⌊x⌋ : α) < 255 := lt_of_le_of_lt (Int.floor_le x) hx
          exact_mod_cast this)
      omega
    omega

theorem toUint8Clamp_close {α : Type} [LinearOrderedField α] [FloorRing α]
    (x : α) : |((toUint8Clamp x : ℤ) : α) - min 255 (max 0 x)| ≤ 1/2 := by
  unfold toUint8Clamp
  split_ifs with h0 h255 hlt hgt hev
  · rw [max_eq_left h0, min_eq_right (by norm_num)]
    simp
  · rw [max_eq_right (le_trans (by norm_num) h255), min_eq_left h255]
    simp
  all_goals
    have hx0 : 0 < x := lt_of_not_le h0
    have hx255 : x < 255 := lt_of_not_le h255
    have hfl0 : 0 ≤ ⌊x⌋ := Int.floor_nonneg.2 (le_of_lt hx0)
    rw [max_eq_right (le_of_lt hx0), min_eq_right (le_of_lt hx255)]
    rw [abs_le]
    have hfle := Int.floor_le x
    have hflt := Int.lt_floor_add_one x
    push_cast [Int.toNat_of_nonneg hfl0]
    constructor <;> first
      | linarith [lt_of_not_le hgt]
      | linarith [hlt]

theorem tuc_eval (x : ℚ) (f : ℤ) (hf : ⌊x⌋ = f) : toUint8Clamp x =
    if x ≤ 0 then 0
    else if 255 ≤ x then 255
    else if x - (f : ℚ) < 1/2 then f.toNat
    else if (1/2 : ℚ) < x - (f : ℚ) then f.toNat + 1
    else if f % 2 = 0 then f.toNat else f.toNat + 1 := by
  rw [toUint8Clamp, hf]

theorem toUint8Clamp_natCast {α : Type} [LinearOrderedField α] [FloorRing α]
    (n : ℕ) (hn : n ≤ 255) : toUint8Clamp (n : α) = n := by
  unfold toUint8Clamp
  rcases Nat.eq_zero_or_pos n with h0 | hpos
  · subst h0; simp
  · rw [if_neg (by
        simp only [not_le]
        exact_mod_cast hpos)]
    rcases Nat.lt_or_ge n 255 with hlt | hge
    · rw [if_neg (by
        simp only [not_le]
        exact_mod_cast hlt)]
      rw [Int.floor_natCast]
      simp
    · have h255 : n = 255 := by omega
      subst h255
      rw [if_pos (by norm_num)]

/-- The clamped luminance value that the grayscale conversion rounds. -/
def clampedLum (r g b : ℚ) : ℚ :=
  min 255 (max 0 (luminance r g b))

/-- C7 (amended): for every RGBA buffer, convertToGrayscale returns a buffer
of length width times height whose every value lies in the byte range and
equals the per pixel luminance 0.299 R + 0.587 G + 0.114 B converted by the
Uint8ClampedArray store, i.e. clamped to the byte range and rounded to the
nearest integer with ties to even (hence within one half of the clamped
luminance); the value is rounded, not truncated. -/
theorem grayscale_C7 (w h : ℕ) (data : List ℕ) :
    (convertToGrayscale w h data).length = w * h ∧
    ∀ i < w * h,
      (convertToGrayscale w h data).getD i 0 ≤ 255 ∧
      (convertToGrayscale w h data).getD i 0 =
        toUint8Clamp (luminance (data.getD (4*i) 0 : ℚ) (data.getD (4*i+1) 0 : ℚ)
          (data.getD (4*i+2) 0 : ℚ)) ∧
      |(((convertToGrayscale w h data).getD i 0 : ℕ) : ℚ) -
        clampedLum (data.getD (4*i) 0 : ℚ) (data.getD (4*i+1) 0 : ℚ)
          (data.getD (4*i+2) 0 : ℚ)| ≤ 1/2 := by
  have hval : ∀ i < w * h, (convertToGrayscale w h data).getD i 0 =
      toUint8Clamp (luminance (data.getD (4*i) 0 : ℚ) (data.getD (4*i+1) 0 : ℚ)
        (data.getD (4*i+2) 0 : ℚ)) := by
    intro i hi
    unfold convertToGrayscale
    rw [List.getD_eq_getElem _ _ (by simpa using hi)]
    simp only [List.getElem_map, List.getElem_range]
  refine ⟨by simp [convertToGrayscale], fun i hi => ⟨?_, hval i hi, ?_⟩⟩
  · rw [hval i hi]; exact toUint8Clamp_le_255 _
  · rw [hval i hi]
    have := toUint8Clamp_close (α := ℚ)
      (luminance (data.getD (4*i) 0 : ℚ) (data.getD (4*i+1) 0 : ℚ)
        (data.getD (4*i+2) 0 : ℚ))
    unfold clampedLum
    push_cast at this ⊢
    exact this

/-- Witness for C7 at the single pixel buffer (10, 20, 30, 255). -/
theorem grayscale_C7_witness :
    0 < 1 * 1 ∧
    ((convertToGrayscale 1 1 [10,20,30,255]).getD 0 0 ≤ 255 ∧
      (convertToGrayscale 1 1 [10,20,30,255]).getD 0 0 =
        toUint8Clamp (luminance (([10,20,30,255].getD (4*0) 0 : ℕ) : ℚ)
          (([10,20,30,255].getD (4*0+1) 0 : ℕ) : ℚ)
          (([10,20,30,255].getD (4*0+2) 0 : ℕ) : ℚ)) ∧
      |(((convertToGrayscale 1 1 [10,20,30,255]).getD 0 0 : ℕ) : ℚ) -
        clampedLum (([10,20,30,255].getD (4*0) 0 : ℕ) : ℚ)
          (([10,20,30,255].getD (4*0+1) 0 : ℕ) : ℚ)
          (([10,20,30,255].getD (4*0+2) 0 : ℕ) : ℚ)| ≤ 1/2) :=
  ⟨by norm_num, (grayscale_C7 1 1 [10,20,30,255]).2 0 (by norm_num)⟩

/-- Counterexample to C7 as stated: on the single pixel (0, 0, 5, 255) the
stored gray value is 1, while the luminance 0.57 truncated to a byte is 0. -/
theorem grayscale_trunc_cex_C7 :
    (convertToGrayscale 1 1 [0,0,5,255]).getD 0 0 = 1 ∧
    (⌊luminance (([0,0,5,255].getD 0 0 : ℕ) : ℚ) (([0,0,5,255].getD 1 0 : ℕ) : ℚ)
      (([0,0,5,255].getD 2 0 : ℕ) : ℚ)⌋).toNat = 0 := by
  constructor
  · have h1 : convertToGrayscale 1 1 [0,0,5,255] = [toUint8Clamp ((57 : ℚ)/100)] := by
      simp [convertToGrayscale, List.range_succ]
      norm_num [luminance]
    rw [h1]
    simp only [List.getD_cons_zero]
    rw [tuc_eval (57/100) 0 (by norm_num)]
    norm_num
  · norm_num [luminance]

/-- A flat RGBA buffer of the right length is recovered by writing back its
own four channels per pixel. -/
theorem buildPixels_eq_self (n : ℕ) (data : List ℕ) (f : ℕ → List ℕ)
    (hlen : data.length = 4 * n)
    (hf : ∀ i < n, f i = [data.getD (4*i) 0, data.getD (4*i+1) 0,
      data.getD (4*i+2) 0, data.getD (4*i+3) 0]) :
    buildPixels n f = data := by
  have h4 : ∀ i < n, (f i).length = 4 := fun i hi => by rw [hf i hi]; rfl
  have hl : (buildPixels n f).length = data.length := by
    rw [buildPixels_length n f h4, hlen]
  apply List.ext_getElem hl
  intro j hj hj'
  rw [← List.getD_eq_getElem _ 0 hj, ← List.getD_eq_getElem _ 0 hj']
  have hjlen : j < 4 * n := by rw [← hlen]; exact hj'
  have hdiv : j / 4 < n := by omega
  have hmod : j % 4 < 4 := by omega
  have hsplit : 4 * (j / 4) + j % 4 = j := Nat.div_add_mod j 4
  conv_lhs => rw [← hsplit]
  rw [buildPixels_getD n f (j/4) (j%4) 0 h4 hdiv hmod, hf (j/4) hdiv]
  have hm : j % 4 = 0 ∨ j % 4 = 1 ∨ j % 4 = 2 ∨ j % 4 = 3 := by omega
  rcases hm with hv | hv | hv | hv <;>
    rw [hv] <;> simp only [List.getD_cons_zero, List.getD_cons_succ] <;>
    (congr 1; omega)

/-- With kernelSize 1 the odd size correction and the half size both reduce
definitionally. -/
theorem applyMedianFilter_one (w h : ℕ) (data : List ℕ) :
    applyMedianFilter w h data 1 = buildPixels (w * h) (fun idx =>
      let pixels := medianNeighborhood w h data 0 (idx % w) (idx / w)
      let sorted := pixels.mergeSort fun p q => decide (p.lum ≤ q.lum)
      let m := sorted.getD (sorted.length / 2) ⟨0, 0, 0, 0⟩
      [m.r, m.g, m.b, m.a]) := rfl

/-- C8: applyMedianFilter with kernelSize 1 gathers only the center pixel of
each neighborhood, so it is the identity transform on every RGBA buffer. -/
theorem medianFilter_identity_C8 (w h : ℕ) (data : List ℕ)
    (hlen : data.length = 4 * (w * h)) :
    applyMedianFilter w h data 1 = data := by
  rw [applyMedianFilter_one]
  apply buildPixels_eq_self (w * h) data _ hlen
  intro idx hidx
  have hw : 0 < w := by
    by_contra hw0
    have : w = 0 := by omega
    subst this
    simp at hidx
  have hx : idx % w < w := Nat.mod_lt _ hw
  have hy : idx / w < h := Nat.div_lt_of_lt_mul hidx
  have hnb : medianNeighborhood w h data 0 (idx % w) (idx / w) =
      [⟨data.getD (4*idx) 0, data.getD (4*idx+1) 0, data.getD (4*idx+2) 0,
        data.getD (4*idx+3) 0⟩] := by
    unfold medianNeighborhood
    simp only [show (2*0+1 : ℕ) = 1 from rfl, show List.range 1 = [0] from rfl,
      List.flatMap_cons, List.flatMap_nil, List.map_cons, List.map_nil,
      List.append_nil]
    have e1 : (clampIdx (((idx % w : ℕ) : ℤ) + ((0:ℕ) : ℤ) - ((0:ℕ) : ℤ)) 0
        ((w : ℤ) - 1)).toNat = idx % w := by
      simp only [clampIdx_def]
      omega
    have e2 : (clampIdx (((idx / w : ℕ) : ℤ) + ((0:ℕ) : ℤ) - ((0:ℕ) : ℤ)) 0
        ((h : ℤ) - 1)).toNat = idx / w := by
      simp only [clampIdx_def]
      have hd0 : (0 : ℤ) ≤ ((idx / w : ℕ) : ℤ) := Int.natCast_nonneg _
      omega
    rw [e1, e2]
    have e3 : (idx / w * w + idx % w) * 4 = 4 * idx := by
      rw [Nat.div_add_mod']
      omega
    rw [e3]
  dsimp only
  rw [hnb]
  simp [List.mergeSort]

/-- Witness for C8 on a concrete two by one buffer. -/
theorem medianFilter_identity_C8_witness :
    [1,2,3,4,5,6,7,8].length = 4 * (2 * 1) ∧
    applyMedianFilter 2 1 [1,2,3,4,5,6,7,8] 1 = [1,2,3,4,5,6,7,8] :=
  ⟨by norm_num, medianFilter_identity_C8 2 1 [1,2,3,4,5,6,7,8] (by norm_num)⟩

/-- The four channels stored for pixel i of a flat RGBA buffer. -/
def chunk4 (l : List ℕ) (i : ℕ) : ℕ × ℕ × ℕ × ℕ :=
  (l.getD (4*i) 0, l.getD (4*i+1) 0, l.getD (4*i+2) 0, l.getD (4*i+3) 0)

/-- Some pixel of the border clamped square neighborhood of radius half
around (x, y) has luminance strictly greater than zero. -/
def brightNearby (w h : ℕ) (data : List ℕ) (half x y : ℕ) : Prop :=
  ∃ ky kx : ℤ, -(half : ℤ) ≤ ky ∧ ky ≤ (half : ℤ) ∧
    -(half : ℤ) ≤ kx ∧ kx ≤ (half : ℤ) ∧
    0 < lumAt w data ((clampIdx ((x : ℤ) + kx) 0 ((w : ℤ) - 1)).toNat)
      ((clampIdx ((y : ℤ) + ky) 0 ((h : ℤ) - 1)).toNat)

theorem brightenB_iff (w h : ℕ) (data : List ℕ) (half x y : ℕ) :
    brightenB w h data half x y = true ↔ brightNearby w h data half x y := by
  unfold brightenB brightNearby
  simp only [List.any_eq_true, List.mem_range, decide_eq_true_eq]
  constructor
  · rintro ⟨ky, hky, kx, hkx, hlum⟩
    refine ⟨(ky : ℤ) - half, (kx : ℤ) - half, by omega, by omega, by omega, by omega, ?_⟩
    have e1 : (x : ℤ) + ((kx : ℤ) - (half : ℤ)) = (x : ℤ) + (kx : ℤ) - (half : ℤ) := by
      ring
    have e2 : (y : ℤ) + ((ky : ℤ) - (half : ℤ)) = (y : ℤ) + (ky : ℤ) - (half : ℤ) := by
      ring
    rw [e1, e2]
    exact hlum
  · rintro ⟨ky, kx, h1, h2, h3, h4, hlum⟩
    refine ⟨(ky + half).toNat, by omega, (kx + half).toNat, by omega, ?_⟩
    have e1 : (x : ℤ) + ((kx + half).toNat : ℤ) - (half : ℤ) = (x : ℤ) + kx := by
      omega
    have e2 : (y : ℤ) + ((ky + half).toNat : ℤ) - (half : ℤ) = (y : ℤ) + ky := by
      omega
    rw [e1, e2]
    exact hlum

/-- C10: for every RGBA buffer and odd kernelSize, applyBrightenFilter sets
the output pixel at (x, y) to (255,255,255,255) exactly when some pixel of
the border clamped kernelSize by kernelSize neighborhood of (x, y) has
luminance 0.299 R + 0.587 G + 0.114 B strictly greater than zero, and to
(0,0,0,0) otherwise: a binary dilation of the non black pixels. -/
theorem brighten_C10 (w h ks : ℕ) (data : List ℕ) (hks : ks % 2 = 1)
    (x y : ℕ) (hx : x < w) (hy : y < h) :
    (chunk4 (applyBrightenFilter w h data ks) (y*w+x) = (255, 255, 255, 255) ↔
      brightNearby w h data (ks/2) x y) ∧
    (chunk4 (applyBrightenFilter w h data ks) (y*w+x) = (255, 255, 255, 255) ∨
      chunk4 (applyBrightenFilter w h data ks) (y*w+x) = (0, 0, 0, 0)) := by
  have hidx : y*w+x < w*h := by
    calc y*w+x < y*w+w := by omega
    _ = (y+1)*w := by ring
    _ ≤ h*w := Nat.mul_le_mul_right _ (by omega)
    _ = w*h := Nat.mul_comm _ _
  have hxm : (y*w+x) % w = x := by
    rw [Nat.add_comm, Nat.add_mul_mod_self_right, Nat.mod_eq_of_lt hx]
  have hyd : (y*w+x) / w = y := by
    rw [Nat.add_comm, Nat.add_mul_div_right _ _ (by omega : 0 < w),
      Nat.div_eq_of_lt hx]
    omega
  have hfdef : applyBrightenFilter w h data ks = buildPixels (w*h) (fun idx =>
      if brightenB w h data (ks/2) (idx % w) (idx / w)
      then [255, 255, 255, 255] else [0, 0, 0, 0]) := by
    unfold applyBrightenFilter
    rw [if_neg (by omega : ¬ ks % 2 = 0)]
  have h4 : ∀ i < w*h, ((fun idx =>
      if brightenB w h data (ks/2) (idx % w) (idx / w)
      then [255, 255, 255, 255] else [0, 0, 0, 0]) i).length = 4 := by
    intro i hi
    dsimp only
    split <;> rfl
  have hch : chunk4 (applyBrightenFilter w h data ks) (y*w+x) =
      (if brightenB w h data (ks/2) x y then ((255 : ℕ), (255 : ℕ), (255 : ℕ), (255 : ℕ))
        else ((0 : ℕ), (0 : ℕ), (0 : ℕ), (0 : ℕ))) := by
    rw [hfdef]
    unfold chunk4
    have g0 := buildPixels_getD (w*h) _ (y*w+x) 0 0 h4 hidx (by omega)
    have g1 := buildPixels_getD (w*h) _ (y*w+x) 1 0 h4 hidx (by omega)
    have g2 := buildPixels_getD (w*h) _ (y*w+x) 2 0 h4 hidx (by omega)
    have g3 := buildPixels_getD (w*h) _ (y*w+x) 3 0 h4 hidx (by omega)
    rw [Nat.add_zero] at g0
    rw [g0, g1, g2, g3]
    rw [hxm, hyd]
    split <;> rfl
  rw [hch]
  by_cases hb : brightenB w h data (ks/2) x y = true
  · rw [if_pos hb]
    exact ⟨by simp [← brightenB_iff, hb], Or.inl rfl⟩
  · rw [if_neg hb]
    constructor
    · constructor
      · intro hcontra
        exact absurd hcontra (by decide)
      · intro hbn
        exact absurd ((brightenB_iff w h data (ks/2) x y).2 hbn) hb
    · exact Or.inr rfl

/-- Witness for C10 on a one pixel buffer with a red pixel. -/
theorem brighten_C10_witness :
    (1 : ℕ) % 2 = 1 ∧ (0 : ℕ) < 1 ∧ (0 : ℕ) < 1 ∧
    ((chunk4 (applyBrightenFilter 1 1 [7,0,0,0] 1) (0*1+0) = (255, 255, 255, 255) ↔
      brightNearby 1 1 [7,0,0,0] (1/2) 0 0) ∧
    (chunk4 (applyBrightenFilter 1 1 [7,0,0,0] 1) (0*1+0) = (255, 255, 255, 255) ∨
      chunk4 (applyBrightenFilter 1 1 [7,0,0,0] 1) (0*1+0) = (0, 0, 0, 0))) :=
  ⟨rfl, Nat.one_pos, Nat.one_pos,
    brighten_C10 1 1 1 [7,0,0,0] rfl 0 0 Nat.one_pos Nat.one_pos⟩

/-! ## Grid wall extractor (identifyWalls) -/

/-- A JavaScript typed array read at a possibly out of range flat index,
compared against the threshold.  Out of range reads yield undefined, and
undefined compared with a number is false. -/
def wallSample (data : List ℕ) (threshold : ℕ) (idx : ℤ) : Bool :=
  if 0 ≤ idx ∧ idx < (data.length : ℤ) then
    decide (threshold ≤ data.getD idx.toNat 0)
  else false

/-- One horizontal sample of identifyWalls at offset i of the tile at (x, y):
the sample on the top row, or the explicitly bounds checked sample at the
flat index of the row above. -/
def sampleH (w : ℕ) (data : List ℕ) (threshold : ℕ) (x y i : ℕ) : Bool :=
  let indexH : ℤ := ((y : ℤ) * w + x + i) * 4
  let indexH2 : ℤ := (((y : ℤ) - 1) * w + x + i) * 4
  wallSample data threshold indexH ||
    ((decide (0 ≤ indexH2) && decide (indexH2 < (data.length : ℤ))) &&
      wallSample data threshold indexH2)

/-- One vertical sample of identifyWalls at offset i of the tile at (x, y):
the sample on the left column, or the explicitly bounds checked sample at the
flat index of the column to the left. -/
def sampleV (w : ℕ) (data : List ℕ) (threshold : ℕ) (x y i : ℕ) : Bool :=
  let indexV : ℤ := (((y : ℤ) + i) * w + x) * 4
  let indexV2 : ℤ := (((y : ℤ) + i) * w + ((x : ℤ) - 1)) * 4
  wallSample data threshold indexV ||
    ((decide (0 ≤ indexV2) && decide (indexV2 < (data.length : ℤ))) &&
      wallSample data threshold indexV2)

/-- The longest run fold of identifyWalls: first component is the longest
unbroken run of true samples seen so far, second is the current run. -/
def runMax (p : ℕ → Bool) (g : ℕ) : ℕ × ℕ :=
  (List.range g).foldl
    (fun st i => if p i then (max st.1 (st.2 + 1), st.2 + 1) else (st.1, 0))
    (0, 0)

/-- The wall segments emitted for the tile whose top left corner is (x, y):
a horizontal segment along the top edge when the longest horizontal run
strictly exceeds grid over two, and symmetrically a vertical segment. -/
def tileWalls (w : ℕ) (data : List ℕ) (threshold g x y : ℕ) : List (List ℕ) :=
  let mh := (runMax (sampleH w data threshold x y) g).1
  let mv := (runMax (sampleV w data threshold x y) g).1
  (if g < 2 * mh then [[x, y, x + g, y]] else []) ++
    (if g < 2 * mv then [[x, y, x, y + g]] else [])

/-- identifyWalls: scan the buffer in cellSize tiles and emit axis aligned
unit cell segments for strong edge runs. -/
def identifyWalls (w h : ℕ) (data : List ℕ) (g threshold : ℕ) : List (List ℕ) :=
  (List.range' 0 ((h + g - 1) / g) g).flatMap fun y =>
    (List.range' 0 ((w + g - 1) / g) g).flatMap fun x =>
      tileWalls w data threshold g x y

/-- A bright read of the pixel at column cx, row cy, in coordinate space. -/
def pixBright (w : ℕ) (data : List ℕ) (threshold cx cy : ℕ) : Bool :=
  decide (threshold ≤ data.getD ((cy * w + cx) * 4) 0)

/-- Modelled from the spec: the wall sampling variant in which the outward
adjacent sample (the row above the top row, the column left of the left
column) has its coordinates clamped to the valid coordinate range, as the
border policy section of the spec describes; the repository source instead
bounds checks the flat index. -/
def sampleHClamped (w h : ℕ) (data : List ℕ) (threshold : ℕ) (x y i : ℕ) : Bool :=
  pixBright w data threshold (x + i) y ||
    pixBright w data threshold (x + i) ((clampIdx ((y : ℤ) - 1) 0 ((h : ℤ) - 1)).toNat)

/-- Modelled from the spec: vertical counterpart of sampleHClamped. -/
def sampleVClamped (w h : ℕ) (data : List ℕ) (threshold : ℕ) (x y i : ℕ) : Bool :=
  pixBright w data threshold x (y + i) ||
    pixBright w data threshold ((clampIdx ((x : ℤ) - 1) 0 ((w : ℤ) - 1)).toNat) (y + i)

/-- Modelled from the spec: identifyWalls with coordinate clamped adjacent
samples instead of flat index bounds checks. -/
def identifyWallsClamped (w h : ℕ) (data : List ℕ) (g threshold : ℕ) :
    List (List ℕ) :=
  (List.range' 0 ((h + g - 1) / g) g).flatMap fun y =>
    (List.range' 0 ((w + g - 1) / g) g).flatMap fun x =>
      let mh := (runMax (sampleHClamped w h data threshold x y) g).1
      let mv := (runMax (sampleVClamped w h data threshold x y) g).1
      (if g < 2 * mh then [[x, y, x + g, y]] else []) ++
        (if g < 2 * mv then [[x, y, x, y + g]] else [])

/-- An edge buffer that is black except for one bright horizontal run of len
pixels starting at (x0, y0): the red channel is 255 there. -/
def lineBuffer (w h x0 y0 len : ℕ) : List ℕ :=
  buildPixels (w * h) fun p =>
    if p / w = y0 ∧ x0 ≤ p % w ∧ p % w < x0 + len
    then [255, 0, 0, 0] else [0, 0, 0, 0]

theorem pixIndex_lt (w h cx cy : ℕ) (hcx : cx < w) (hcy : cy < h) :
    cy * w + cx < w * h := by
  calc cy * w + cx < cy * w + w := by omega
  _ = (cy + 1) * w := by ring
  _ ≤ h * w := Nat.mul_le_mul_right _ (by omega)
  _ = w * h := Nat.mul_comm _ _

theorem runMax_succ (p : ℕ → Bool) (n : ℕ) :
    runMax p (n+1) =
      (if p n then (max (runMax p n).1 ((runMax p n).2 + 1), (runMax p n).2 + 1)
        else ((runMax p n).1, 0)) := by
  unfold runMax
  rw [List.range_succ, List.foldl_append]
  rfl

theorem runMax_snd_le_fst (p : ℕ → Bool) (n : ℕ) :
    (runMax p n).2 ≤ (runMax p n).1 := by
  induction n with
  | zero => simp [runMax]
  | succ n ih =>
    rw [runMax_succ]
    split
    · simp
    · simp

theorem runMax_fst_mono (p : ℕ → Bool) (m n : ℕ) (h : m ≤ n) :
    (runMax p m).1 ≤ (runMax p n).1 := by
  induction n with
  | zero =>
    have : m = 0 := by omega
    subst this
    exact le_refl _
  | succ n ih =>
    rcases Nat.lt_or_ge m (n+1) with hlt | hge
    · have hle := ih (by omega)
      rw [runMax_succ]
      split
      · simp only []
        exact le_trans hle (le_max_left _ _)
      · exact hle
    · have : m = n + 1 := by omega
      subst this
      exact le_refl _

theorem runMax_snd_ge (p : ℕ → Bool) (a : ℕ) (n : ℕ)
    (htrue : ∀ i, a ≤ i → i < n → p i = true) :
    n - a ≤ (runMax p n).2 := by
  induction n with
  | zero => omega
  | succ n ih =>
    rcases Nat.lt_or_ge n a with hlt | hge
    · omega
    · rw [runMax_succ, if_pos (htrue n hge (by omega))]
      have := ih (fun i hi hi2 => htrue i hi (by omega))
      simp only []
      omega

theorem runMax_fst_ge_run (p : ℕ → Bool) (a b g : ℕ)
    (htrue : ∀ i, a ≤ i → i < b → p i = true) (hbg : b ≤ g) :
    b - a ≤ (runMax p g).1 :=
  le_trans (le_trans (runMax_snd_ge p a b htrue) (runMax_snd_le_fst p b))
    (runMax_fst_mono p b g hbg)

theorem runMax_all_false (p : ℕ → Bool) (n : ℕ)
    (hfalse : ∀ i, i < n → p i = false) :
    runMax p n = (0, 0) := by
  induction n with
  | zero => rfl
  | succ n ih =>
    rw [runMax_succ, if_neg (by rw [hfalse n (by omega)]; exact Bool.false_ne_true),
      ih (fun i hi => hfalse i (by omega))]

theorem wallSample_red_dark (data : List ℕ) (t : ℕ)
    (hdark : ∀ i, i < data.length → i % 4 = 0 → data.getD i 0 < t)
    (idx : ℤ) (hmod : idx % 4 = 0) :
    wallSample data t idx = false := by
  unfold wallSample
  split
  · rename_i hin
    simp only [decide_eq_false_iff_not, not_le]
    have hlt : idx.toNat < data.length := by omega
    have hm : idx.toNat % 4 = 0 := by omega
    exact hdark _ hlt hm
  · rfl

theorem lineBuffer_length (w h x0 y0 len : ℕ) :
    (lineBuffer w h x0 y0 len).length = 4 * (w * h) := by
  apply buildPixels_length
  intro i hi
  dsimp only
  split <;> rfl

theorem lineBuffer_getD (w h x0 y0 len cx cy : ℕ) (hcx : cx < w) (hcy : cy < h) :
    (lineBuffer w h x0 y0 len).getD ((cy * w + cx) * 4) 0 =
      if cy = y0 ∧ x0 ≤ cx ∧ cx < x0 + len then 255 else 0 := by
  unfold lineBuffer
  have h4 : ∀ i < w*h, ((fun p => if p / w = y0 ∧ x0 ≤ p % w ∧ p % w < x0 + len
      then [255, 0, 0, 0] else [0, 0, 0, 0]) i).length = 4 := by
    intro i hi
    dsimp only
    split <;> rfl
  have hp : cy * w + cx < w * h := pixIndex_lt w h cx cy hcx hcy
  have he : (cy * w + cx) * 4 = 4 * (cy * w + cx) + 0 := by ring
  rw [he, buildPixels_getD _ _ _ _ _ h4 hp (by omega)]
  have hw : 0 < w := by omega
  show ((if (cy * w + cx) / w = y0 ∧ x0 ≤ (cy * w + cx) % w ∧ (cy * w + cx) % w < x0 + len
    then ([255, 0, 0, 0] : List ℕ) else [0, 0, 0, 0])).getD 0 0 = _
  have hdiv : (cy * w + cx) / w = cy := by
    rw [Nat.add_comm, Nat.add_mul_div_right _ _ hw, Nat.div_eq_of_lt hcx]
    omega
  have hmod : (cy * w + cx) % w = cx := by
    rw [Nat.add_comm, Nat.add_mul_mod_self_right, Nat.mod_eq_of_lt hcx]
  rw [hdiv, hmod]
  split <;> rfl

theorem sampleH_line (w h g t tx ty x0 len i : ℕ) (ht255 : t ≤ 255)
    (hh : ty * g < h) (hwid : x0 + len ≤ w)
    (hlo : x0 ≤ tx * g + i) (hhi : tx * g + i < x0 + len) :
    sampleH w (lineBuffer w h x0 (ty * g) len) t (tx * g) (ty * g) i = true := by
  have hcx : tx * g + i < w := by omega
  have hE : ((((ty * g : ℕ) : ℤ) * (w : ℕ) + ((tx * g : ℕ) : ℤ) + ((i : ℕ) : ℤ)) * 4)
      = ((((ty * g) * w + (tx * g + i)) * 4 : ℕ) : ℤ) := by
    push_cast
    ring
  have hws : wallSample (lineBuffer w h x0 (ty * g) len) t
      ((((ty * g : ℕ) : ℤ) * (w : ℕ) + ((tx * g : ℕ) : ℤ) + ((i : ℕ) : ℤ)) * 4) = true := by
    unfold wallSample
    rw [hE]
    rw [if_pos]
    · rw [Int.toNat_natCast]
      rw [lineBuffer_getD w h x0 (ty * g) len (tx * g + i) (ty * g) hcx hh]
      rw [if_pos ⟨rfl, hlo, hhi⟩]
      simpa using ht255
    · constructor
      · positivity
      · rw [lineBuffer_length]
        have hp := pixIndex_lt w h (tx * g + i) (ty * g) hcx hh
        have hn : ((ty * g) * w + (tx * g + i)) * 4 < 4 * (w * h) := by omega
        exact_mod_cast hn
  simp only [sampleH]
  rw [hws]
  rfl

/-- C2 (amended): identifyWalls on a buffer whose tile contains one exact
horizontal line of bright samples emits the horizontal segment along that
tile top edge when the line length strictly exceeds cellSize over two (the
source compares with strict greater than, so length exactly cellSize over
two emits nothing); and on an edge buffer with no sample reaching the
threshold it emits the empty list (the extractor reads only red channels:
every flat index it samples is a multiple of four, so only the values at
indices divisible by four matter, and an opaque black mask qualifies). -/
theorem identifyWalls_C2 :
    (∀ w h g t tx ty x0 len : ℕ,
      0 < g → t ≤ 255 →
      tx * g < w → ty * g < h →
      tx * g ≤ x0 → 0 < len → x0 + len ≤ tx * g + g → x0 + len ≤ w →
      g < 2 * len →
      [tx * g, ty * g, tx * g + g, ty * g] ∈
        identifyWalls w h (lineBuffer w h x0 (ty * g) len) g t) ∧
    (∀ (w h g t : ℕ) (data : List ℕ), 0 < g →
      (∀ i, i < data.length → i % 4 = 0 → data.getD i 0 < t) →
      identifyWalls w h data g t = []) := by
  constructor
  · intro w h g t tx ty x0 len hg ht255 htx hty hx0 hlen hfit hwid hrun
    unfold identifyWalls
    apply List.mem_flatMap.mpr
    have hty2 : ty < (h + g - 1) / g := by
      have h1 : (ty + 1) * g ≤ h + g - 1 := by
        have h2 : (ty + 1) * g = ty * g + g := by ring
        omega
      have := (Nat.le_div_iff_mul_le hg).mpr h1
      omega
    have htx2 : tx < (w + g - 1) / g := by
      have h1 : (tx + 1) * g ≤ w + g - 1 := by
        have h2 : (tx + 1) * g = tx * g + g := by ring
        omega
      have := (Nat.le_div_iff_mul_le hg).mpr h1
      omega
    refine ⟨0 + g * ty, List.mem_range'.mpr ⟨ty, hty2, rfl⟩, ?_⟩
    apply List.mem_flatMap.mpr
    refine ⟨0 + g * tx, List.mem_range'.mpr ⟨tx, htx2, rfl⟩, ?_⟩
    have ex : 0 + g * tx = tx * g := by ring
    have ey : 0 + g * ty = ty * g := by ring
    rw [ex, ey]
    simp only [tileWalls]
    have hmh : len ≤ (runMax
        (sampleH w (lineBuffer w h x0 (ty * g) len) t (tx * g) (ty * g)) g).1 := by
      have hr := runMax_fst_ge_run
        (sampleH w (lineBuffer w h x0 (ty * g) len) t (tx * g) (ty * g))
        (x0 - tx * g) (x0 - tx * g + len) g
        (fun i hi1 hi2 =>
          sampleH_line w h g t tx ty x0 len i ht255 hty hwid (by omega) (by omega))
        (by omega)
      omega
    rw [if_pos (by omega : g < 2 * (runMax
      (sampleH w (lineBuffer w h x0 (ty * g) len) t (tx * g) (ty * g)) g).1)]
    exact List.mem_append_left _ (by simp)
  · intro w h g t data hg hdark
    unfold identifyWalls
    have hsH : ∀ x y i, sampleH w data t x y i = false := by
      intro x y i
      simp only [sampleH]
      rw [wallSample_red_dark data t hdark _ (Int.mul_emod_left _ _),
        wallSample_red_dark data t hdark _ (Int.mul_emod_left _ _)]
      simp
    have hsV : ∀ x y i, sampleV w data t x y i = false := by
      intro x y i
      simp only [sampleV]
      rw [wallSample_red_dark data t hdark _ (Int.mul_emod_left _ _),
        wallSample_red_dark data t hdark _ (Int.mul_emod_left _ _)]
      simp
    have htile : ∀ x y, tileWalls w data t g x y = [] := by
      intro x y
      simp only [tileWalls]
      rw [runMax_all_false _ _ (fun i _ => hsH x y i),
        runMax_all_false _ _ (fun i _ => hsV x y i)]
      simp
    simp [htile]

/-- Witness for C2: a three pixel line of length two in a three by three
buffer with cellSize three emits the top edge segment, and an opaque black
one pixel buffer (red 0, alpha 255) emits nothing. -/
theorem identifyWalls_C2_witness :
    ((0 : ℕ) < 3 ∧ (100 : ℕ) ≤ 255 ∧ 0 * 3 < 3 ∧ 0 * 3 < 3 ∧ 0 * 3 ≤ 0 ∧
      (0 : ℕ) < 2 ∧ 0 + 2 ≤ 0 * 3 + 3 ∧ 0 + 2 ≤ 3 ∧ 3 < 2 * 2 ∧
      [0 * 3, 0 * 3, 0 * 3 + 3, 0 * 3] ∈
        identifyWalls 3 3 (lineBuffer 3 3 0 (0 * 3) 2) 3 100) ∧
    ((0 : ℕ) < 2 ∧
      (∀ i, i < ([(0 : ℕ), 0, 0, 255]).length → i % 4 = 0 →
        ([(0 : ℕ), 0, 0, 255]).getD i 0 < 100) ∧
      identifyWalls 1 1 [0, 0, 0, 255] 2 100 = []) :=
  ⟨⟨by norm_num, by norm_num, by norm_num, by norm_num, by norm_num, by norm_num,
    by norm_num, by norm_num, by norm_num,
    identifyWalls_C2.1 3 3 3 100 0 0 0 2 (by norm_num) (by norm_num) (by norm_num)
      (by norm_num) (by norm_num) (by norm_num) (by norm_num) (by norm_num)
      (by norm_num)⟩,
   by norm_num, by decide,
   identifyWalls_C2.2 1 1 2 100 [0, 0, 0, 255] (by norm_num) (by decide)⟩

/-- Counterexample to C2 as stated: with cellSize 2 a bright run of length
1 has length at least cellSize over two, yet identifyWalls emits no segment
because the source requires the run to strictly exceed cellSize over two. -/
theorem identifyWalls_run_cex_C2 :
    ((1 : ℚ) ≥ (2 : ℚ) / 2) ∧
    identifyWalls 2 2 (lineBuffer 2 2 0 0 1) 2 100 = [] := by
  constructor
  · norm_num
  · decide

/-- C6 (amended): the grid extractor resolves out of range adjacent samples
by bounds checking the flat buffer index, not by clamping coordinates.  At a
tile top row with y = 0 the row above fails the flat bounds check and is
skipped, so the sample reduces to the top row pixel alone; at a left column
with x = 0 and row y + i at least 1 the left adjacent flat index wraps
around to the last pixel of the previous row, an unrelated pixel. -/
theorem identifyWalls_border_C6 (w h : ℕ) (data : List ℕ) (t : ℕ)
    (hw : 0 < w) (hh : 0 < h) (hlen : data.length = 4 * (w * h)) :
    (∀ x i : ℕ, x + i < w →
      sampleH w data t x 0 i = pixBright w data t (x + i) 0) ∧
    (∀ y i : ℕ, 1 ≤ y + i → y + i < h →
      sampleV w data t 0 y i =
        (pixBright w data t 0 (y + i) || pixBright w data t (w - 1) (y + i - 1))) := by
  constructor
  · intro x i hxi
    simp only [sampleH]
    have h2 : decide ((0:ℤ) ≤ ((((0:ℕ) : ℤ) - 1) * w + x + i) * 4) = false := by
      simp only [decide_eq_false_iff_not, not_le]
      push_cast
      omega
    rw [h2]
    simp only [Bool.false_and, Bool.and_false, Bool.or_false]
    unfold wallSample
    rw [if_pos]
    · have hE : ((((0:ℕ) : ℤ) * w + x + i) * 4) = (((0 * w + (x + i)) * 4 : ℕ) : ℤ) := by
        push_cast
        ring
      rw [hE, Int.toNat_natCast]
      rfl
    · constructor
      · push_cast
        omega
      · rw [hlen]
        have hwh : w ≤ w * h := Nat.le_mul_of_pos_right w hh
        push_cast
        omega
  · intro y i h1 h2
    simp only [sampleV]
    have hr1 : 1 ≤ (y + i) * w := Nat.mul_pos (by omega) hw
    have hrh : (y + i) * w ≤ w * h := by
      calc (y + i) * w ≤ h * w := Nat.mul_le_mul_right _ (by omega)
      _ = w * h := Nat.mul_comm _ _
    have e1 : ((((y:ℕ) : ℤ) + ((i:ℕ) : ℤ)) * (w:ℕ) + (((0:ℕ) : ℤ))) * 4 =
        ((((y + i) * w + 0) * 4 : ℕ) : ℤ) := by
      push_cast
      ring
    have e2 : ((((y:ℕ) : ℤ) + ((i:ℕ) : ℤ)) * (w:ℕ) + (((0:ℕ) : ℤ) - 1)) * 4 =
        ((((y + i) * w - 1) * 4 : ℕ) : ℤ) := by
      push_cast [hr1]
      ring
    have hv1 : wallSample data t
        (((((y:ℕ) : ℤ) + ((i:ℕ) : ℤ)) * (w:ℕ) + (((0:ℕ) : ℤ))) * 4) =
        pixBright w data t 0 (y + i) := by
      unfold wallSample
      rw [if_pos]
      · rw [e1, Int.toNat_natCast]
        rfl
      · constructor
        · rw [e1]
          positivity
        · rw [e1, hlen]
          have := pixIndex_lt w h 0 (y + i) hw h2
          have hn : ((y + i) * w + 0) * 4 < 4 * (w * h) := by omega
          exact_mod_cast hn
    have hv2 : wallSample data t
        (((((y:ℕ) : ℤ) + ((i:ℕ) : ℤ)) * (w:ℕ) + (((0:ℕ) : ℤ) - 1)) * 4) =
        pixBright w data t (w - 1) (y + i - 1) := by
      unfold wallSample
      rw [if_pos]
      · rw [e2, Int.toNat_natCast]
        unfold pixBright
        have e3 : (y + i - 1) * w + (w - 1) = (y + i) * w - 1 := by
          obtain ⟨r, hr⟩ : ∃ r, y + i = r + 1 := ⟨y + i - 1, by omega⟩
          rw [hr]
          have : (r + 1) * w = r * w + w := by ring
          simp only [Nat.add_sub_cancel]
          omega
        rw [e3]
      · constructor
        · rw [e2]
          positivity
        · rw [e2, hlen]
          have hn : ((y + i) * w - 1) * 4 < 4 * (w * h) := by omega
          exact_mod_cast hn
    rw [hv1, hv2]
    have hin : (decide ((0:ℤ) ≤ ((((y:ℕ) : ℤ) + ((i:ℕ) : ℤ)) * (w:ℕ) +
        (((0:ℕ) : ℤ) - 1)) * 4)) = true := by
      simp only [decide_eq_true_eq]
      rw [e2]
      positivity
    have hin2 : (decide (((((y:ℕ) : ℤ) + ((i:ℕ) : ℤ)) * (w:ℕ) +
        (((0:ℕ) : ℤ) - 1)) * 4 < (data.length : ℤ))) = true := by
      simp only [decide_eq_true_eq]
      rw [e2, hlen]
      have hn : ((y + i) * w - 1) * 4 < 4 * (w * h) := by omega
      exact_mod_cast hn
    rw [hin, hin2]
    simp

/-- Witness for C6 on the concrete two by two buffer whose top row is
bright. -/
theorem identifyWalls_border_C6_witness :
    (0 : ℕ) < 2 ∧
    ([255,0,0,255, 255,0,0,255, 0,0,0,255, 0,0,0,255] : List ℕ).length = 4 * (2 * 2) ∧
    (0 + 1 : ℕ) < 2 ∧ (1 : ℕ) ≤ 0 + 1 ∧
    sampleH 2 [255,0,0,255, 255,0,0,255, 0,0,0,255, 0,0,0,255] 100 0 0 1 =
      pixBright 2 [255,0,0,255, 255,0,0,255, 0,0,0,255, 0,0,0,255] 100 (0 + 1) 0 ∧
    sampleV 2 [255,0,0,255, 255,0,0,255, 0,0,0,255, 0,0,0,255] 100 0 0 1 =
      (pixBright 2 [255,0,0,255, 255,0,0,255, 0,0,0,255, 0,0,0,255] 100 0 (0 + 1) ||
       pixBright 2 [255,0,0,255, 255,0,0,255, 0,0,0,255, 0,0,0,255] 100 (2 - 1) (0 + 1 - 1)) :=
  ⟨by norm_num, by norm_num, by norm_num, by norm_num,
   (identifyWalls_border_C6 2 2 [255,0,0,255, 255,0,0,255, 0,0,0,255, 0,0,0,255] 100
      (by norm_num) (by norm_num) (by norm_num)).1 0 1 (by norm_num),
   (identifyWalls_border_C6 2 2 [255,0,0,255, 255,0,0,255, 0,0,0,255, 0,0,0,255] 100
      (by norm_num) (by norm_num) (by norm_num)).2 0 1 (by norm_num) (by norm_num)⟩

/-- Counterexample to C6 as stated: on a two by two buffer with a bright top
row, the source emits an extra vertical wall that the coordinate clamping
variant does not, because at x = 0, row 1, the left adjacent flat index
reads the bright pixel (1, 0) of the previous row instead of a clamped
in-column pixel. -/
theorem identifyWalls_clamp_cex_C6 :
    identifyWalls 2 2 [255,0,0,255, 255,0,0,255, 0,0,0,255, 0,0,0,255] 2 100 =
      [[0,0,2,0], [0,0,0,2]] ∧
    identifyWallsClamped 2 2 [255,0,0,255, 255,0,0,255, 0,0,0,255, 0,0,0,255] 2 100 =
      [[0,0,2,0]] := by
  constructor
  · decide
  · decide

/-! ## Inside and outside separation (separateInside) -/

/-- The RGB color triple of pixel p of a flat RGBA buffer. -/
def colorAt (data : List ℕ) (p : ℕ) : ℕ × ℕ × ℕ :=
  (data.getD (4*p) 0, data.getD (4*p+1) 0, data.getD (4*p+2) 0)

/-- The colors sampled along the four borders, in the source traversal
order: for each x the top then bottom pixel, then for each interior y the
left then right pixel. -/
def edgeColorList (w h : ℕ) (data : List ℕ) : List (ℕ × ℕ × ℕ) :=
  ((List.range w).flatMap fun x =>
    [colorAt data (x + 0 * w), colorAt data (x + (h - 1) * w)]) ++
  ((List.range' 1 (h - 2) 1).flatMap fun y =>
    [colorAt data (0 + y * w), colorAt data ((w - 1) + y * w)])

/-- The JavaScript comparison count / totalEdgePixels > threshold: when the
total is zero, count over zero is Infinity for positive count (which exceeds
any threshold) and NaN for zero count (which compares false). -/
def jsDivGTb (cnt : ℕ) (total : ℤ) (thr : ℚ) : Bool :=
  if total = 0 then decide (cnt ≠ 0)
  else decide (thr < (cnt : ℚ) / (total : ℚ))

/-- separateInside: flag as outside every color whose share of the border
samples exceeds the threshold fraction, repaint outside pixels black and all
others white, always with alpha 255. -/
def separateInside (w h : ℕ) (data : List ℕ) (threshold : ℚ) : List ℕ :=
  let totalEdgePixels : ℤ := 2 * w + 2 * h - 4
  let edge := edgeColorList w h data
  buildPixels (w * h) fun p =>
    if jsDivGTb ((edge.filter (fun e => e = colorAt data p)).length)
        totalEdgePixels threshold
    then [0, 0, 0, 255] else [255, 255, 255, 255]

/-- C9: after separateInside, every output pixel is exactly (0,0,0,255) or
exactly (255,255,255,255); in particular every alpha channel is 255, also
for pixels that were transparent in the input. -/
theorem separateInside_C9 (w h : ℕ) (data : List ℕ) (thr : ℚ)
    (hne : 0 < w * h) :
    ∀ i < w * h,
      chunk4 (separateInside w h data thr) i = (0, 0, 0, 255) ∨
      chunk4 (separateInside w h data thr) i = (255, 255, 255, 255) := by
  intro i hi
  unfold separateInside chunk4
  have h4 : ∀ j < w * h, ((fun p =>
      if jsDivGTb (((edgeColorList w h data).filter
          (fun e => e = colorAt data p)).length) (2 * w + 2 * h - 4) thr
      then [0, 0, 0, 255] else [255, 255, 255, 255]) j).length = 4 := by
    intro j hj
    dsimp only
    split <;> rfl
  have g0 := buildPixels_getD (w*h) _ i 0 0 h4 hi (by omega)
  have g1 := buildPixels_getD (w*h) _ i 1 0 h4 hi (by omega)
  have g2 := buildPixels_getD (w*h) _ i 2 0 h4 hi (by omega)
  have g3 := buildPixels_getD (w*h) _ i 3 0 h4 hi (by omega)
  rw [Nat.add_zero] at g0
  rw [g0, g1, g2, g3]
  split
  · left; rfl
  · right; rfl

/-- Witness for C9 on a one pixel transparent buffer. -/
theorem separateInside_C9_witness :
    0 < 1 * 1 ∧ (0 : ℕ) < 1 * 1 ∧
    (chunk4 (separateInside 1 1 [9, 9, 9, 0] (2/5)) 0 = (0, 0, 0, 255) ∨
     chunk4 (separateInside 1 1 [9, 9, 9, 0] (2/5)) 0 = (255, 255, 255, 255)) :=
  ⟨Nat.one_pos, Nat.one_pos,
    separateInside_C9 1 1 [9, 9, 9, 0] (2/5) Nat.one_pos 0 Nat.one_pos⟩

/-! ## Separable Gaussian blur (applyGaussianBlur) -/

/-- kernelSize = max(3, ceil(sigma * 3) * 2 + 1). -/
def gaussKernelSize (sigma : ℚ) : ℕ :=
  (max 3 (2 * ⌈sigma * 3⌉ + 1)).toNat

/-- halfSize = floor(kernelSize / 2). -/
def gaussHalfSize (sigma : ℚ) : ℕ :=
  gaussKernelSize sigma / 2

/-- The unnormalized Gaussian weight exp(-(x^2) / (2 sigma^2)) at tap i,
where x = i - halfSize.  (The source evaluates Math.exp; for sigma = 0 the
JavaScript expression is NaN while the real division by zero is zero, but
every caller passes a positive sigma.) -/
noncomputable def gaussWeight (sigma : ℚ) (i : ℕ) : ℝ :=
  Real.exp (-(((i : ℝ) - (gaussHalfSize sigma : ℝ))^2 / (2 * (sigma : ℝ)^2)))

/-- The normalized kernel entry: weight divided by the sum of all weights. -/
noncomputable def gaussKernel (sigma : ℚ) (i : ℕ) : ℝ :=
  gaussWeight sigma i / ∑ j ∈ Finset.range (gaussKernelSize sigma), gaussWeight sigma j

/-- The horizontal blur pass, with clamped sampling at the row ends. -/
noncomputable def gaussHorizontal (w h : ℕ) (data : List ℕ) (sigma : ℚ) : List ℕ :=
  (List.range (w * h)).map fun idx =>
    let y := idx / w
    let x := idx % w
    toUint8Clamp (∑ k ∈ Finset.range (gaussKernelSize sigma),
      (data.getD (y * w +
        (clampIdx ((x : ℤ) + (k : ℤ) - (gaussHalfSize sigma : ℤ)) 0 ((w : ℤ) - 1)).toNat) 0 : ℝ)
        * gaussKernel sigma k)

/-- The vertical blur pass, with clamped sampling at the column ends. -/
noncomputable def gaussVertical (w h : ℕ) (data : List ℕ) (sigma : ℚ) : List ℕ :=
  (List.range (w * h)).map fun idx =>
    let y := idx / w
    let x := idx % w
    toUint8Clamp (∑ k ∈ Finset.range (gaussKernelSize sigma),
      (data.getD ((clampIdx ((y : ℤ) + (k : ℤ) - (gaussHalfSize sigma : ℤ)) 0 ((h : ℤ) - 1)).toNat
        * w + x) 0 : ℝ) * gaussKernel sigma k)

/-- applyGaussianBlur: the horizontal pass followed by the vertical pass. -/
noncomputable def applyGaussianBlur (w h : ℕ) (data : List ℕ) (sigma : ℚ) : List ℕ :=
  gaussVertical w h (gaussHorizontal w h data sigma) sigma

/-! ## Canny style edge detection (cannyEdgeDetection) -/

-- Math.atan2 over the reals.
open Classical in
noncomputable def atan2R (y x : ℝ) : ℝ :=
  if 0 < x then Real.arctan (y / x)
  else if x < 0 then
    (if y < 0 then Real.arctan (y / x) - Real.pi else Real.arctan (y / x) + Real.pi)
  else
    (if 0 < y then Real.pi / 2 else if y < 0 then -(Real.pi / 2) else 0)

def sobelX : List ℤ := [-1, 0, 1, -2, 0, 2, -1, 0, 1]

def sobelY : List ℤ := [-1, -2, -1, 0, 0, 0, 1, 2, 1]

/-- The horizontal Sobel response at interior pixel (x, y); the loop indices
run shifted by one so the natural subtraction stays in range. -/
def gradGx (w : ℕ) (data : List ℕ) (x y : ℕ) : ℤ :=
  ∑ ky ∈ Finset.range 3, ∑ kx ∈ Finset.range 3,
    (data.getD ((y + ky - 1) * w + (x + kx - 1)) 0 : ℤ) * sobelX.getD (ky * 3 + kx) 0

/-- The vertical Sobel response at interior pixel (x, y). -/
def gradGy (w : ℕ) (data : List ℕ) (x y : ℕ) : ℤ :=
  ∑ ky ∈ Finset.range 3, ∑ kx ∈ Finset.range 3,
    (data.getD ((y + ky - 1) * w + (x + kx - 1)) 0 : ℤ) * sobelY.getD (ky * 3 + kx) 0

/-- Gradient magnitude buffer: min(255, sqrt(gx^2 + gy^2)) stored as a byte
on interior pixels, zero on the border rows and columns. -/
noncomputable def gradientMagnitudeList (w h : ℕ) (data : List ℕ) : List ℕ :=
  (List.range (w * h)).map fun idx =>
    let y := idx / w
    let x := idx % w
    if 1 ≤ x ∧ x < w - 1 ∧ 1 ≤ y ∧ y < h - 1 then
      toUint8Clamp (min (255 : ℝ)
        (Real.sqrt (((gradGx w data x y : ℤ) : ℝ)^2 + ((gradGy w data x y : ℤ) : ℝ)^2)))
    else 0

/-- Quantize the gradient angle into the buckets 0, 45, 90, 135. -/
noncomputable def dirBucket (gy gx : ℤ) : ℕ :=
  let angle0 := atan2R (gy : ℝ) (gx : ℝ) * 180 / Real.pi
  let angle := if angle0 < 0 then angle0 + 180 else angle0
  if (0 ≤ angle ∧ angle < 22.5) ∨ (157.5 ≤ angle ∧ angle ≤ 180) then 0
  else if 22.5 ≤ angle ∧ angle < 67.5 then 45
  else if 67.5 ≤ angle ∧ angle < 112.5 then 90
  else 135

/-- Gradient direction buffer: the quantized bucket on interior pixels,
zero on the border rows and columns. -/
noncomputable def gradientDirList (w h : ℕ) (data : List ℕ) : List ℕ :=
  (List.range (w * h)).map fun idx =>
    let y := idx / w
    let x := idx % w
    if 1 ≤ x ∧ x < w - 1 ∧ 1 ≤ y ∧ y < h - 1 then
      dirBucket (gradGy w data x y) (gradGx w data x y)
    else 0

/-- Non maximum suppression: zero any interior pixel below the absolute
floor 10, otherwise keep it only when it is at least as large as its two
clamped neighbors along the gradient direction. -/
def applyNonMaximumSuppression (w h : ℕ) (mag dir : List ℕ) : List ℕ :=
  (List.range (w * h)).map fun idx =>
    let y := idx / w
    let x := idx % w
    if 1 ≤ x ∧ x < w - 1 ∧ 1 ≤ y ∧ y < h - 1 then
      let m := mag.getD idx 0
      if m < 10 then 0
      else
        let d := dir.getD idx 0
        let n1 : ℤ × ℤ :=
          if d = 0 then ((x : ℤ) - 1, (y : ℤ))
          else if d = 45 then ((x : ℤ) + 1, (y : ℤ) - 1)
          else if d = 90 then ((x : ℤ), (y : ℤ) - 1)
          else ((x : ℤ) - 1, (y : ℤ) - 1)
        let n2 : ℤ × ℤ :=
          if d = 0 then ((x : ℤ) + 1, (y : ℤ))
          else if d = 45 then ((x : ℤ) - 1, (y : ℤ) + 1)
          else if d = 90 then ((x : ℤ), (y : ℤ) + 1)
          else ((x : ℤ) + 1, (y : ℤ) + 1)
        let v1 := mag.getD ((clampIdx n1.2 0 ((h : ℤ) - 1)).toNat * w +
          (clampIdx n1.1 0 ((w : ℤ) - 1)).toNat) 0
        let v2 := mag.getD ((clampIdx n2.2 0 ((h : ℤ) - 1)).toNat * w +
          (clampIdx n2.1 0 ((w : ℤ) - 1)).toNat) 0
        if v1 ≤ m ∧ v2 ≤ m then m else 0
    else 0

def traceDx : List ℤ := [-1, -1, 0, 1, 1, 1, 0, -1]

def traceDy : List ℤ := [0, -1, -1, -1, 0, 1, 1, 1]

/-- The stack based trace of applyHysteresis as a fueled worklist; the top
of the JavaScript array stack is the head of the list.  The fuel passed by
applyHysteresis bounds the number of pops, which never exceeds one plus the
number of pixels, since a pixel is pushed only when first visited. -/
def traceStep (w h : ℕ) (data : List ℕ) (low : ℕ) :
    ℕ → List (ℕ × ℕ) → List ℕ × List ℕ → List ℕ × List ℕ
  | 0, _, st => st
  | _ + 1, [], st => st
  | fuel + 1, (x, y) :: stack, (edges, visited) =>
    let step := (List.range 8).foldl
      (fun (st : List ℕ × List ℕ × List (ℕ × ℕ)) i =>
        let nx : ℤ := (x : ℤ) + traceDx.getD i 0
        let ny : ℤ := (y : ℤ) + traceDy.getD i 0
        if 0 ≤ nx ∧ nx < (w : ℤ) ∧ 0 ≤ ny ∧ ny < (h : ℤ) then
          let nidx := ny.toNat * w + nx.toNat
          if st.2.1.getD nidx 0 = 0 ∧ low ≤ data.getD nidx 0 then
            (st.1.set nidx 255, (st.2.1.set nidx 1, (nx.toNat, ny.toNat) :: st.2.2))
          else st
        else st)
      (edges, visited, [])
    traceStep w h data low fuel (step.2.2 ++ stack) (step.1, step.2.1)

/-- applyHysteresis: mark strong pixels, then trace weak pixels reachable
from strong pixels through 8-connected neighbors. -/
def applyHysteresis (w h : ℕ) (data : List ℕ) (low high : ℕ) : List ℕ :=
  let edges0 := (List.range (w * h)).map fun i => if high ≤ data.getD i 0 then 255 else 0
  let visited0 := (List.range (w * h)).map fun i => if high ≤ data.getD i 0 then 1 else 0
  ((List.range (w * h)).foldl
    (fun (st : List ℕ × List ℕ) idx =>
      if st.1.getD idx 0 = 255 ∧ st.2.getD idx 0 = 1 then
        traceStep w h data low (w * h + 2) [(idx % w, idx / w)] st
      else st)
    (edges0, visited0)).1

/-- The non maximum suppressed magnitudes computed by cannyEdgeDetection:
grayscale conversion, Gaussian blur, Sobel gradients, suppression. -/
noncomputable def nmsOf (w h : ℕ) (data : List ℕ) (sigma : ℚ) : List ℕ :=
  applyNonMaximumSuppression w h
    (gradientMagnitudeList w h
      (applyGaussianBlur w h (convertToGrayscale w h data) sigma))
    (gradientDirList w h
      (applyGaussianBlur w h (convertToGrayscale w h data) sigma))

/-- cannyEdgeDetection: grayscale, blur, Sobel gradients, non maximum
suppression, the no edges check with floor 1, then hysteresis. -/
noncomputable def cannyEdgeDetection (w h : ℕ) (data : List ℕ)
    (lowThreshold highThreshold : ℕ) (sigma : ℚ) : Except String (List ℕ) :=
  let suppressed := nmsOf w h data sigma
  let maxValue := suppressed.foldl max 1
  if maxValue ≤ 1 then
    Except.error "No edges detected in the image. Please check the input image."
  else
    Except.ok (applyHysteresis w h suppressed lowThreshold highThreshold)

/-- A buffer every pixel of which is the constant color (r, g, b, a). -/
def constBuffer (w h r g b a : ℕ) : List ℕ :=
  buildPixels (w * h) fun _ => [r, g, b, a]

theorem rangeMap_getD (n : ℕ) (f : ℕ → ℕ) (i d : ℕ) (hi : i < n) :
    ((List.range n).map f).getD i d = f i := by
  rw [List.getD_eq_getElem _ _ (by simpa using hi)]
  simp

theorem rowcol_mod (w x y : ℕ) (hx : x < w) : (y * w + x) % w = x := by
  rw [Nat.add_comm, Nat.add_mul_mod_self_right, Nat.mod_eq_of_lt hx]

theorem rowcol_div (w x y : ℕ) (hx : x < w) : (y * w + x) / w = y := by
  rw [Nat.add_comm, Nat.add_mul_div_right _ _ (by omega : 0 < w),
    Nat.div_eq_of_lt hx]
  omega

theorem gaussKernelSize_pos (sigma : ℚ) : 0 < gaussKernelSize sigma := by
  unfold gaussKernelSize
  have h3 : (3 : ℤ) ≤ max 3 (2 * ⌈sigma * 3⌉ + 1) := le_max_left _ _
  omega

theorem gaussKernel_sum (sigma : ℚ) :
    ∑ j ∈ Finset.range (gaussKernelSize sigma), gaussKernel sigma j = 1 := by
  unfold gaussKernel
  rw [← Finset.sum_div]
  apply div_self
  apply ne_of_gt
  apply Finset.sum_pos
  · intro i _
    exact Real.exp_pos _
  · exact Finset.nonempty_range_iff.mpr (by
      have := gaussKernelSize_pos sigma
      omega)

/-- C5 (amended): for sigma > 0 the 1-D kernel radius is max(1, ceil(sigma
times 3)) (the source uses ceil, not round), the normalized kernel entries
sum to one, the blur is the horizontal pass followed by the vertical pass,
and both passes sample out of range positions by clamping the coordinate to
the nearest border pixel. -/
theorem gaussianBlur_C5 (sigma : ℚ) (hs : 0 < sigma) :
    ((gaussHalfSize sigma : ℤ) = max 1 ⌈sigma * 3⌉) ∧
    (∑ j ∈ Finset.range (gaussKernelSize sigma), gaussKernel sigma j = 1) ∧
    (∀ (w h : ℕ) (data : List ℕ) (x y : ℕ), x < w → y < h →
      (applyGaussianBlur w h data sigma =
        gaussVertical w h (gaussHorizontal w h data sigma) sigma) ∧
      (gaussHorizontal w h data sigma).getD (y * w + x) 0 =
        toUint8Clamp (∑ k ∈ Finset.range (gaussKernelSize sigma),
          (data.getD (y * w +
            (clampIdx ((x : ℤ) + (k : ℤ) - (gaussHalfSize sigma : ℤ)) 0
              ((w : ℤ) - 1)).toNat) 0 : ℝ) * gaussKernel sigma k) ∧
      (applyGaussianBlur w h data sigma).getD (y * w + x) 0 =
        toUint8Clamp (∑ k ∈ Finset.range (gaussKernelSize sigma),
          ((gaussHorizontal w h data sigma).getD
            ((clampIdx ((y : ℤ) + (k : ℤ) - (gaussHalfSize sigma : ℤ)) 0
              ((h : ℤ) - 1)).toNat * w + x) 0 : ℝ) * gaussKernel sigma k)) := by
  refine ⟨?_, gaussKernel_sum sigma, ?_⟩
  · unfold gaussHalfSize gaussKernelSize
    have hc : 1 ≤ ⌈sigma * 3⌉ := Int.ceil_pos.mpr (by positivity)
    omega
  · intro w h data x y hx hy
    have hxm := rowcol_mod w x y hx
    have hyd := rowcol_div w x y hx
    have hidx : y * w + x < w * h := pixIndex_lt w h x y hx hy
    refine ⟨rfl, ?_, ?_⟩
    · unfold gaussHorizontal
      rw [rangeMap_getD _ _ _ _ hidx]
      dsimp only
      rw [hxm, hyd]
    · unfold applyGaussianBlur gaussVertical
      rw [rangeMap_getD _ _ _ _ hidx]
      dsimp only
      rw [hxm, hyd]

/-- Witness for C5 at sigma = 1 on a single pixel buffer. -/
theorem gaussianBlur_C5_witness :
    (0 : ℚ) < 1 ∧ (0 : ℕ) < 1 ∧ (0 : ℕ) < 1 ∧
    (((gaussHalfSize 1 : ℤ) = max 1 ⌈(1 : ℚ) * 3⌉) ∧
      (∑ j ∈ Finset.range (gaussKernelSize 1), gaussKernel 1 j = 1) ∧
      ((applyGaussianBlur 1 1 [5] 1 =
        gaussVertical 1 1 (gaussHorizontal 1 1 [5] 1) 1) ∧
      (gaussHorizontal 1 1 [5] 1).getD (0 * 1 + 0) 0 =
        toUint8Clamp (∑ k ∈ Finset.range (gaussKernelSize 1),
          (([5] : List ℕ).getD (0 * 1 +
            (clampIdx ((0 : ℤ) + (k : ℤ) - (gaussHalfSize 1 : ℤ)) 0
              ((1 : ℤ) - 1)).toNat) 0 : ℝ) * gaussKernel 1 k) ∧
      (applyGaussianBlur 1 1 [5] 1).getD (0 * 1 + 0) 0 =
        toUint8Clamp (∑ k ∈ Finset.range (gaussKernelSize 1),
          ((gaussHorizontal 1 1 [5] 1).getD
            ((clampIdx ((0 : ℤ) + (k : ℤ) - (gaussHalfSize 1 : ℤ)) 0
              ((1 : ℤ) - 1)).toNat * 1 + 0) 0 : ℝ) * gaussKernel 1 k))) :=
  ⟨by norm_num, Nat.one_pos, Nat.one_pos, by
    have hmain := gaussianBlur_C5 1 (by norm_num)
    exact ⟨hmain.1, hmain.2.1, hmain.2.2 1 1 [5] 0 0 Nat.one_pos Nat.one_pos⟩⟩

/-- Counterexample to C5 as stated: at sigma = 2/5 the source kernel radius
is ceil(1.2) = 2, while max(1, round(1.2)) = 1. -/
theorem gauss_radius_cex_C5 :
    gaussHalfSize (2/5) = 2 ∧ max 1 (jsMathRound ((2/5 : ℚ) * 3)) = 1 := by
  constructor
  · unfold gaussHalfSize gaussKernelSize
    have hc : ⌈(2/5 : ℚ) * 3⌉ = 2 := by
      rw [Int.ceil_eq_iff]
      norm_num
    rw [hc]
    decide
  · unfold jsMathRound
    have hf : ⌊(2/5 : ℚ) * 3 + 1/2⌋ = 1 := by
      rw [Int.floor_eq_iff]
      norm_num
    rw [hf]
    decide

theorem replicate_getD (n x i d : ℕ) :
    (List.replicate n x).getD i d = if i < n then x else d := by
  rcases Nat.lt_or_ge i n with h | h
  · rw [if_pos h, List.getD_eq_getElem _ _ (by simpa using h)]
    simp
  · rw [if_neg (by omega), List.getD_eq_default _ _ (by simpa using h)]

theorem rangeMap_eq_replicate (n : ℕ) (f : ℕ → ℕ) (c : ℕ)
    (hf : ∀ i < n, f i = c) :
    (List.range n).map f = List.replicate n c := by
  have hl : (List.map f (List.range n)).length = n := by simp
  conv_rhs => rw [← hl]
  apply List.eq_replicate_of_mem
  intro b hb
  rw [List.mem_map] at hb
  obtain ⟨i, hi, rfl⟩ := hb
  exact hf i (List.mem_range.mp hi)

theorem foldl_max_le_iff (l : List ℕ) (b c : ℕ) :
    l.foldl max b ≤ c ↔ b ≤ c ∧ ∀ v ∈ l, v ≤ c := by
  induction l generalizing b with
  | nil => simp
  | cons x xs ih =>
    rw [List.foldl_cons, ih, List.forall_mem_cons, max_le_iff]
    tauto

theorem grayscale_const (w h r g b a : ℕ) :
    convertToGrayscale w h (constBuffer w h r g b a) =
      List.replicate (w * h) (toUint8Clamp (luminance (r : ℚ) (g : ℚ) (b : ℚ))) := by
  unfold convertToGrayscale
  apply rangeMap_eq_replicate
  intro i hi
  have h4 : ∀ j < w * h, ((fun (_ : ℕ) => [r, g, b, a]) j).length = 4 :=
    fun j hj => rfl
  have g0 := buildPixels_getD (w*h) (fun _ => [r, g, b, a]) i 0 0 h4 hi (by omega)
  have g1 := buildPixels_getD (w*h) (fun _ => [r, g, b, a]) i 1 0 h4 hi (by omega)
  have g2 := buildPixels_getD (w*h) (fun _ => [r, g, b, a]) i 2 0 h4 hi (by omega)
  rw [Nat.add_zero] at g0
  unfold constBuffer
  rw [g0, g1, g2]
  rfl

theorem gaussHorizontal_const (w h c : ℕ) (hc : c ≤ 255) (sigma : ℚ) :
    gaussHorizontal w h (List.replicate (w * h) c) sigma =
      List.replicate (w * h) c := by
  unfold gaussHorizontal
  apply rangeMap_eq_replicate
  intro i hi
  dsimp only
  have hw : 0 < w := by
    by_contra h0
    have : w = 0 := by omega
    subst this
    simp at hi
  have hx : i % w < w := Nat.mod_lt _ hw
  have hy : i / w < h := Nat.div_lt_of_lt_mul hi
  have hsum : ∀ k ∈ Finset.range (gaussKernelSize sigma),
      ((List.replicate (w * h) c).getD (i / w * w +
        (clampIdx (((i % w : ℕ) : ℤ) + (k : ℤ) - (gaussHalfSize sigma : ℤ)) 0
          ((w : ℤ) - 1)).toNat) 0 : ℝ) * gaussKernel sigma k =
      (c : ℝ) * gaussKernel sigma k := by
    intro k hk
    have hcl : (clampIdx (((i % w : ℕ) : ℤ) + (k : ℤ) - (gaussHalfSize sigma : ℤ)) 0
        ((w : ℤ) - 1)).toNat < w := by
      simp only [clampIdx_def]
      omega
    have hidx := pixIndex_lt w h _ (i / w) hcl hy
    have hval : (List.replicate (w * h) c).getD (i / w * w +
        (clampIdx (((i % w : ℕ) : ℤ) + (k : ℤ) - (gaussHalfSize sigma : ℤ)) 0
          ((w : ℤ) - 1)).toNat) 0 = c := by
      rw [replicate_getD, if_pos hidx]
    rw [hval]
  rw [Finset.sum_congr rfl hsum, ← Finset.mul_sum, gaussKernel_sum, mul_one]
  exact toUint8Clamp_natCast c hc

theorem gaussVertical_const (w h c : ℕ) (hc : c ≤ 255) (sigma : ℚ) :
    gaussVertical w h (List.replicate (w * h) c) sigma =
      List.replicate (w * h) c := by
  unfold gaussVertical
  apply rangeMap_eq_replicate
  intro i hi
  dsimp only
  have hw : 0 < w := by
    by_contra h0
    have : w = 0 := by omega
    subst this
    simp at hi
  have hh : 0 < h := by
    by_contra h0
    have : h = 0 := by omega
    subst this
    simp at hi
  have hx : i % w < w := Nat.mod_lt _ hw
  have hsum : ∀ k ∈ Finset.range (gaussKernelSize sigma),
      ((List.replicate (w * h) c).getD
        ((clampIdx (((i / w : ℕ) : ℤ) + (k : ℤ) - (gaussHalfSize sigma : ℤ)) 0
          ((h : ℤ) - 1)).toNat * w + i % w) 0 : ℝ) * gaussKernel sigma k =
      (c : ℝ) * gaussKernel sigma k := by
    intro k hk
    have hcl : (clampIdx (((i / w : ℕ) : ℤ) + (k : ℤ) - (gaussHalfSize sigma : ℤ)) 0
        ((h : ℤ) - 1)).toNat < h := by
      simp only [clampIdx_def]
      omega
    have hidx := pixIndex_lt w h (i % w) _ hx hcl
    have hval : (List.replicate (w * h) c).getD
        ((clampIdx (((i / w : ℕ) : ℤ) + (k : ℤ) - (gaussHalfSize sigma : ℤ)) 0
          ((h : ℤ) - 1)).toNat * w + i % w) 0 = c := by
      rw [replicate_getD, if_pos hidx]
    rw [hval]
  rw [Finset.sum_congr rfl hsum, ← Finset.mul_sum, gaussKernel_sum, mul_one]
  exact toUint8Clamp_natCast c hc

theorem applyGaussianBlur_const (w h c : ℕ) (hc : c ≤ 255) (sigma : ℚ) :
    applyGaussianBlur w h (List.replicate (w * h) c) sigma =
      List.replicate (w * h) c := by
  unfold applyGaussianBlur
  rw [gaussHorizontal_const w h c hc, gaussVertical_const w h c hc]

theorem gradGx_const (w h c x y : ℕ) (hx1 : 1 ≤ x) (hx2 : x < w - 1)
    (hy1 : 1 ≤ y) (hy2 : y < h - 1) :
    gradGx w (List.replicate (w * h) c) x y = 0 := by
  unfold gradGx
  have hval : ∀ ky ∈ Finset.range 3, ∀ kx ∈ Finset.range 3,
      ((List.replicate (w * h) c).getD ((y + ky - 1) * w + (x + kx - 1)) 0 : ℤ) *
        sobelX.getD (ky * 3 + kx) 0 = (c : ℤ) * sobelX.getD (ky * 3 + kx) 0 := by
    intro ky hky kx hkx
    rw [Finset.mem_range] at hky hkx
    have hcol : x + kx - 1 < w := by omega
    have hrow : y + ky - 1 < h := by omega
    have hidx := pixIndex_lt w h (x + kx - 1) (y + ky - 1) hcol hrow
    rw [replicate_getD, if_pos hidx]
  rw [Finset.sum_congr rfl (fun ky hky => Finset.sum_congr rfl (hval ky hky))]
  simp [Finset.sum_range_succ, sobelX]

theorem gradGy_const (w h c x y : ℕ) (hx1 : 1 ≤ x) (hx2 : x < w - 1)
    (hy1 : 1 ≤ y) (hy2 : y < h - 1) :
    gradGy w (List.replicate (w * h) c) x y = 0 := by
  unfold gradGy
  have hval : ∀ ky ∈ Finset.range 3, ∀ kx ∈ Finset.range 3,
      ((List.replicate (w * h) c).getD ((y + ky - 1) * w + (x + kx - 1)) 0 : ℤ) *
        sobelY.getD (ky * 3 + kx) 0 = (c : ℤ) * sobelY.getD (ky * 3 + kx) 0 := by
    intro ky hky kx hkx
    rw [Finset.mem_range] at hky hkx
    have hcol : x + kx - 1 < w := by omega
    have hrow : y + ky - 1 < h := by omega
    have hidx := pixIndex_lt w h (x + kx - 1) (y + ky - 1) hcol hrow
    rw [replicate_getD, if_pos hidx]
  rw [Finset.sum_congr rfl (fun ky hky => Finset.sum_congr rfl (hval ky hky))]
  simp [Finset.sum_range_succ, sobelY]
  ring

theorem gradientMagnitudeList_const (w h c : ℕ) :
    gradientMagnitudeList w h (List.replicate (w * h) c) =
      List.replicate (w * h) 0 := by
  unfold gradientMagnitudeList
  apply rangeMap_eq_replicate
  intro i hi
  dsimp only
  split
  · rename_i hint
    obtain ⟨h1, h2, h3, h4⟩ := hint
    rw [gradGx_const w h c _ _ h1 h2 h3 h4, gradGy_const w h c _ _ h1 h2 h3 h4]
    norm_num
    simp [toUint8Clamp]
  · rfl

theorem nms_of_zero (w h : ℕ) (dir : List ℕ) :
    applyNonMaximumSuppression w h (List.replicate (w * h) 0) dir =
      List.replicate (w * h) 0 := by
  unfold applyNonMaximumSuppression
  apply rangeMap_eq_replicate
  intro i hi
  dsimp only
  split
  · rw [replicate_getD, if_pos hi]
    norm_num
  · rfl

theorem nmsOf_const (w h r g b a : ℕ) (sigma : ℚ) :
    nmsOf w h (constBuffer w h r g b a) sigma = List.replicate (w * h) 0 := by
  unfold nmsOf
  rw [grayscale_const,
    applyGaussianBlur_const w h _ (toUint8Clamp_le_255 _) sigma,
    gradientMagnitudeList_const, nms_of_zero]

/-- C1: cannyEdgeDetection fails with the no edges detected error exactly
when every non maximum suppressed magnitude is at most 1 (the code floors
the maximum at 1, so the check maxValue less or equal 1 holds precisely in
that case); in particular, on every constant color image, and so on every
all black and every all white image, it raises the error and produces no
edge output. -/
theorem canny_C1 :
    (∀ (w h : ℕ) (data : List ℕ) (low high : ℕ) (sigma : ℚ),
      (∃ e, cannyEdgeDetection w h data low high sigma = Except.error e) ↔
        ∀ v ∈ nmsOf w h data sigma, v ≤ 1) ∧
    (∀ (w h r g b a low high : ℕ) (sigma : ℚ), 0 < sigma →
      ∃ e, cannyEdgeDetection w h (constBuffer w h r g b a) low high sigma =
        Except.error e) := by
  have hiff : ∀ (w h : ℕ) (data : List ℕ) (low high : ℕ) (sigma : ℚ),
      (∃ e, cannyEdgeDetection w h data low high sigma = Except.error e) ↔
        ∀ v ∈ nmsOf w h data sigma, v ≤ 1 := by
    intro w h data low high sigma
    simp only [cannyEdgeDetection]
    by_cases hle : (nmsOf w h data sigma).foldl max 1 ≤ 1
    · rw [if_pos hle]
      rw [foldl_max_le_iff] at hle
      exact ⟨fun _ => hle.2, fun _ => ⟨_, rfl⟩⟩
    · rw [if_neg hle]
      constructor
      · rintro ⟨e, he⟩
        exact absurd he (by simp)
      · intro hall
        exact absurd ((foldl_max_le_iff _ _ _).mpr ⟨le_refl 1, hall⟩) hle
  refine ⟨hiff, ?_⟩
  intro w h r g b a low high sigma hs
  rw [hiff]
  intro v hv
  rw [nmsOf_const] at hv
  have := List.eq_of_mem_replicate hv
  omega

/-- Witness for C1: a two by two all black image with the default thresholds
and sigma 1.4 fails with the error. -/
theorem canny_C1_witness :
    (0 : ℚ) < 7/5 ∧
    ∃ e, cannyEdgeDetection 2 2 (constBuffer 2 2 0 0 0 255) 40 70 (7/5) =
      Except.error e :=
  ⟨by norm_num, canny_C1.2 2 2 0 0 0 255 40 70 (7/5) (by norm_num)⟩

/-! ## k means image segmentation -/

/-- The summed squared channel differences of two RGB points. -/
def sqDistQ (a b : ℚ × ℚ × ℚ) : ℚ :=
  (a.1 - b.1)^2 + (a.2.1 - b.2.1)^2 + (a.2.2 - b.2.2)^2

/-- euclideanDistance: the square root of the summed squared channel
differences. -/
noncomputable def euclideanDistance (a b : ℚ × ℚ × ℚ) : ℝ :=
  Real.sqrt ((sqDistQ a b : ℚ) : ℝ)

-- The assignment loop of the source initializes minDist to Infinity, so
-- the j = 0 iteration always replaces it; the fold below therefore starts
-- from cluster 0 with its distance and scans j from 1 to k - 1.
open Classical in
noncomputable def assignPixel (p : ℚ × ℚ × ℚ) (cents : List (ℚ × ℚ × ℚ)) : ℕ :=
  ((List.range' 1 (cents.length - 1) 1).foldl
    (fun (st : ℝ × ℕ) j =>
      if euclideanDistance p (cents.getD j (0, 0, 0)) < st.1
      then (euclideanDistance p (cents.getD j (0, 0, 0)), j) else st)
    (euclideanDistance p (cents.getD 0 (0, 0, 0)), 0)).2

/-- One assignment pass: each pixel goes to its nearest centroid, ties to
the lowest index. -/
noncomputable def assignAll (pixels cents : List (ℚ × ℚ × ℚ)) : List ℕ :=
  pixels.map fun p => assignPixel p cents

/-- The number of pixels assigned to cluster j. -/
def clusterCount (n : ℕ) (clusters : List ℕ) (j : ℕ) : ℕ :=
  ((Finset.range n).filter fun i => clusters.getD i 0 = j).card

/-- The channel sum of the pixels assigned to cluster j. -/
def clusterSum (pixels : List (ℚ × ℚ × ℚ)) (clusters : List ℕ) (j : ℕ)
    (ch : ℚ × ℚ × ℚ → ℚ) : ℚ :=
  ∑ i ∈ Finset.range pixels.length,
    if clusters.getD i 0 = j then ch (pixels.getD i (0, 0, 0)) else 0

/-- The centroid update: channel wise means of the assigned pixels; an
empty cluster keeps the zero centroid. -/
def newCentroids (pixels : List (ℚ × ℚ × ℚ)) (clusters : List ℕ) (k : ℕ) :
    List (ℚ × ℚ × ℚ) :=
  (List.range k).map fun j =>
    let n := clusterCount pixels.length clusters j
    if n = 0 then (0, 0, 0)
    else (clusterSum pixels clusters j (fun p => p.1) / n,
      clusterSum pixels clusters j (fun p => p.2.1) / n,
      clusterSum pixels clusters j (fun p => p.2.2) / n)

/-- One iteration of the main k means loop: assignment then update. -/
noncomputable def kMeansStep (pixels cents : List (ℚ × ℚ × ℚ)) :
    List ℕ × List (ℚ × ℚ × ℚ) :=
  (assignAll pixels cents, newCentroids pixels (assignAll pixels cents) cents.length)

/-- The convergence test: every centroid moved at most threshold. -/
def convergedP (old new : List (ℚ × ℚ × ℚ)) (threshold : ℚ) : Prop :=
  ∀ j < old.length,
    euclideanDistance (old.getD j (0, 0, 0)) (new.getD j (0, 0, 0)) ≤ (threshold : ℝ)

open Classical in
noncomputable def kMeansLoop (pixels : List (ℚ × ℚ × ℚ)) (threshold : ℚ) :
    ℕ → List (ℚ × ℚ × ℚ) → List ℕ → List ℕ × List (ℚ × ℚ × ℚ)
  | 0, cents, clusters => (clusters, cents)
  | fuel + 1, cents, clusters =>
    let st := kMeansStep pixels cents
    if convergedP cents st.2 threshold then (st.1, st.2)
    else kMeansLoop pixels threshold fuel st.2 st.1

/-- kMeansImageSegmentation with the random centroid seeding abstracted
into the initialCentroids parameter (the source seeds them from randomly
chosen pixels); maxIterations is the loop fuel and clusters start all
zero. -/
noncomputable def kMeansImageSegmentation (pixels initialCentroids : List (ℚ × ℚ × ℚ))
    (maxIterations : ℕ) (threshold : ℚ) : List ℕ × List (ℚ × ℚ × ℚ) :=
  kMeansLoop pixels threshold maxIterations initialCentroids
    (List.replicate pixels.length 0)

/-- The total intra cluster distance: the sum over pixels of the Euclidean
distance from each pixel to its assigned centroid. -/
noncomputable def intraClusterDist (pixels : List (ℚ × ℚ × ℚ)) (clusters : List ℕ)
    (cents : List (ℚ × ℚ × ℚ)) : ℝ :=
  ∑ i ∈ Finset.range pixels.length,
    euclideanDistance (pixels.getD i (0, 0, 0))
      (cents.getD (clusters.getD i 0) (0, 0, 0))

/-- The total intra cluster squared distance. -/
def intraClusterSqDist (pixels : List (ℚ × ℚ × ℚ)) (clusters : List ℕ)
    (cents : List (ℚ × ℚ × ℚ)) : ℚ :=
  ∑ i ∈ Finset.range pixels.length,
    sqDistQ (pixels.getD i (0, 0, 0))
      (cents.getD (clusters.getD i 0) (0, 0, 0))

theorem sqDistQ_nonneg (a b : ℚ × ℚ × ℚ) : 0 ≤ sqDistQ a b := by
  unfold sqDistQ
  positivity

theorem euclideanDistance_le_iff (p a b : ℚ × ℚ × ℚ) :
    euclideanDistance p a ≤ euclideanDistance p b ↔ sqDistQ p a ≤ sqDistQ p b := by
  unfold euclideanDistance
  rw [Real.sqrt_le_sqrt_iff (by exact_mod_cast sqDistQ_nonneg p b)]
  exact_mod_cast Iff.rfl

theorem assignFold_spec (p : ℚ × ℚ × ℚ) (cents : List (ℚ × ℚ × ℚ))
    (l : List ℕ) (st : ℝ × ℕ)
    (hst : st.1 = euclideanDistance p (cents.getD st.2 (0, 0, 0))) :
    ((l.foldl (fun (st : ℝ × ℕ) j =>
        if euclideanDistance p (cents.getD j (0, 0, 0)) < st.1
        then (euclideanDistance p (cents.getD j (0, 0, 0)), j) else st) st).1 =
      euclideanDistance p (cents.getD ((l.foldl (fun (st : ℝ × ℕ) j =>
        if euclideanDistance p (cents.getD j (0, 0, 0)) < st.1
        then (euclideanDistance p (cents.getD j (0, 0, 0)), j) else st) st).2) (0, 0, 0))) ∧
    ((l.foldl (fun (st : ℝ × ℕ) j =>
        if euclideanDistance p (cents.getD j (0, 0, 0)) < st.1
        then (euclideanDistance p (cents.getD j (0, 0, 0)), j) else st) st).2 = st.2 ∨
      (l.foldl (fun (st : ℝ × ℕ) j =>
        if euclideanDistance p (cents.getD j (0, 0, 0)) < st.1
        then (euclideanDistance p (cents.getD j (0, 0, 0)), j) else st) st).2 ∈ l) ∧
    (l.foldl (fun (st : ℝ × ℕ) j =>
        if euclideanDistance p (cents.getD j (0, 0, 0)) < st.1
        then (euclideanDistance p (cents.getD j (0, 0, 0)), j) else st) st).1 ≤ st.1 ∧
    ∀ j ∈ l, (l.foldl (fun (st : ℝ × ℕ) j =>
        if euclideanDistance p (cents.getD j (0, 0, 0)) < st.1
        then (euclideanDistance p (cents.getD j (0, 0, 0)), j) else st) st).1 ≤
      euclideanDistance p (cents.getD j (0, 0, 0)) := by
  induction l generalizing st with
  | nil =>
    refine ⟨hst, Or.inl rfl, le_refl _, ?_⟩
    intro j hj
    cases hj
  | cons x xs ih =>
    simp only [List.foldl_cons]
    by_cases hx : euclideanDistance p (cents.getD x (0, 0, 0)) < st.1
    · rw [if_pos hx]
      obtain ⟨h1, h2, h3, h4⟩ := ih (euclideanDistance p (cents.getD x (0, 0, 0)), x) rfl
      refine ⟨h1, ?_, le_trans h3 (le_of_lt hx), ?_⟩
      · rcases h2 with h2 | h2
        · exact Or.inr (by rw [h2]; exact List.mem_cons_self x xs)
        · exact Or.inr (List.mem_cons_of_mem x h2)
      · intro j hj
        rcases List.mem_cons.mp hj with hj | hj
        · subst hj
          exact h3
        · exact h4 j hj
    · rw [if_neg hx]
      obtain ⟨h1, h2, h3, h4⟩ := ih st hst
      refine ⟨h1, ?_, h3, ?_⟩
      · rcases h2 with h2 | h2
        · exact Or.inl h2
        · exact Or.inr (List.mem_cons_of_mem x h2)
      · intro j hj
        rcases List.mem_cons.mp hj with hj | hj
        · subst hj
          exact le_trans h3 (le_of_not_lt hx)
        · exact h4 j hj

theorem assignPixel_lt (p : ℚ × ℚ × ℚ) (cents : List (ℚ × ℚ × ℚ))
    (h : cents ≠ []) : assignPixel p cents < cents.length := by
  unfold assignPixel
  obtain ⟨-, h2, -, -⟩ := assignFold_spec p cents (List.range' 1 (cents.length - 1) 1)
    (euclideanDistance p (cents.getD 0 (0, 0, 0)), 0) rfl
  have hlen : 0 < cents.length := List.length_pos.mpr h
  rcases h2 with h2 | h2
  · omega
  · rw [List.mem_range'] at h2
    obtain ⟨i, hi, heq⟩ := h2
    omega

theorem assignPixel_min (p : ℚ × ℚ × ℚ) (cents : List (ℚ × ℚ × ℚ))
    (j : ℕ) (hj : j < cents.length) :
    sqDistQ p (cents.getD (assignPixel p cents) (0, 0, 0)) ≤
      sqDistQ p (cents.getD j (0, 0, 0)) := by
  unfold assignPixel
  obtain ⟨h1, -, h3, h4⟩ := assignFold_spec p cents (List.range' 1 (cents.length - 1) 1)
    (euclideanDistance p (cents.getD 0 (0, 0, 0)), 0) rfl
  rw [← euclideanDistance_le_iff, ← h1]
  rcases Nat.eq_zero_or_pos j with hj0 | hjpos
  · subst hj0
    exact h3
  · exact h4 j (List.mem_range'.mpr ⟨j - 1, by omega, by omega⟩)

theorem sum_sq_mean_le (S : Finset ℕ) (f : ℕ → ℚ) (c : ℚ) (hS : S.Nonempty) :
    ∑ i ∈ S, (f i - (∑ i ∈ S, f i) / S.card)^2 ≤ ∑ i ∈ S, (f i - c)^2 := by
  set μ : ℚ := (∑ i ∈ S, f i) / S.card with hμ
  have hcard : (0 : ℚ) < S.card := by
    have := Finset.card_pos.mpr hS
    exact_mod_cast this
  have hsum : ∑ i ∈ S, (f i - μ) = 0 := by
    rw [Finset.sum_sub_distrib, Finset.sum_const, nsmul_eq_mul, hμ]
    field_simp
  have expand : ∀ i ∈ S, (f i - c)^2 =
      (f i - μ)^2 + 2*(μ - c)*(f i - μ) + (μ - c)^2 := by
    intro i _
    ring
  rw [Finset.sum_congr rfl expand, Finset.sum_add_distrib, Finset.sum_add_distrib,
    ← Finset.mul_sum, hsum, mul_zero, Finset.sum_const, nsmul_eq_mul]
  have h1 : (0 : ℚ) ≤ (S.card : ℚ) * (μ - c)^2 := by positivity
  linarith

theorem sum_sqDistQ_mean_le (S : Finset ℕ) (pt : ℕ → ℚ × ℚ × ℚ) (c : ℚ × ℚ × ℚ)
    (hS : S.Nonempty) :
    ∑ i ∈ S, sqDistQ (pt i) ((∑ i ∈ S, (pt i).1) / S.card,
      (∑ i ∈ S, (pt i).2.1) / S.card, (∑ i ∈ S, (pt i).2.2) / S.card) ≤
    ∑ i ∈ S, sqDistQ (pt i) c := by
  unfold sqDistQ
  simp only []
  rw [Finset.sum_add_distrib, Finset.sum_add_distrib,
    Finset.sum_add_distrib, Finset.sum_add_distrib]
  have h1 := sum_sq_mean_le S (fun i => (pt i).1) c.1 hS
  have h2 := sum_sq_mean_le S (fun i => (pt i).2.1) c.2.1 hS
  have h3 := sum_sq_mean_le S (fun i => (pt i).2.2) c.2.2 hS
  exact add_le_add (add_le_add h1 h2) h3

theorem rangeMap_getDA {α : Type} (n : ℕ) (f : ℕ → α) (i : ℕ) (d : α) (hi : i < n) :
    ((List.range n).map f).getD i d = f i := by
  rw [List.getD_eq_getElem _ _ (by simpa using hi)]
  simp

theorem assignAll_getD (pixels cents : List (ℚ × ℚ × ℚ)) (i : ℕ)
    (hi : i < pixels.length) :
    (assignAll pixels cents).getD i 0 =
      assignPixel (pixels.getD i (0, 0, 0)) cents := by
  unfold assignAll
  rw [List.getD_eq_getElem _ _ (by simpa using hi), List.getElem_map,
    List.getD_eq_getElem _ _ hi]

theorem newCentroids_length (pixels : List (ℚ × ℚ × ℚ)) (clusters : List ℕ)
    (k : ℕ) : (newCentroids pixels clusters k).length = k := by
  simp [newCentroids]

theorem step_cost_le (pixels : List (ℚ × ℚ × ℚ)) (aPrev : List ℕ)
    (c : List (ℚ × ℚ × ℚ)) (hc : c ≠ [])
    (haPrev : ∀ i < pixels.length, aPrev.getD i 0 < c.length) :
    intraClusterSqDist pixels (assignAll pixels c)
      (newCentroids pixels (assignAll pixels c) c.length) ≤
    intraClusterSqDist pixels aPrev c := by
  have ha2 : ∀ i < pixels.length, (assignAll pixels c).getD i 0 =
      assignPixel (pixels.getD i (0, 0, 0)) c := fun i hi => assignAll_getD pixels c i hi
  have ha2lt : ∀ i < pixels.length, (assignAll pixels c).getD i 0 < c.length := by
    intro i hi
    rw [ha2 i hi]
    exact assignPixel_lt _ _ hc
  have hmid : intraClusterSqDist pixels (assignAll pixels c) c ≤
      intraClusterSqDist pixels aPrev c := by
    unfold intraClusterSqDist
    apply Finset.sum_le_sum
    intro i hi
    rw [Finset.mem_range] at hi
    rw [ha2 i hi]
    exact assignPixel_min _ _ _ (haPrev i hi)
  refine le_trans ?_ hmid
  unfold intraClusterSqDist
  have hmaps : ∀ i ∈ Finset.range pixels.length,
      (assignAll pixels c).getD i 0 ∈ Finset.range c.length := by
    intro i hi
    exact Finset.mem_range.mpr (ha2lt i (Finset.mem_range.mp hi))
  rw [← Finset.sum_fiberwise_of_maps_to hmaps
      (fun i => sqDistQ (pixels.getD i (0, 0, 0))
        ((newCentroids pixels (assignAll pixels c) c.length).getD
          ((assignAll pixels c).getD i 0) (0, 0, 0))),
    ← Finset.sum_fiberwise_of_maps_to hmaps
      (fun i => sqDistQ (pixels.getD i (0, 0, 0))
        (c.getD ((assignAll pixels c).getD i 0) (0, 0, 0)))]
  apply Finset.sum_le_sum
  intro j hj
  have hfib : ∀ i ∈ (Finset.range pixels.length).filter
      (fun i => (assignAll pixels c).getD i 0 = j),
      (assignAll pixels c).getD i 0 = j := by
    intro i hi
    exact (Finset.mem_filter.mp hi).2
  have hlhs : ∑ i ∈ (Finset.range pixels.length).filter
      (fun i => (assignAll pixels c).getD i 0 = j),
      sqDistQ (pixels.getD i (0, 0, 0))
        ((newCentroids pixels (assignAll pixels c) c.length).getD
          ((assignAll pixels c).getD i 0) (0, 0, 0)) =
      ∑ i ∈ (Finset.range pixels.length).filter
      (fun i => (assignAll pixels c).getD i 0 = j),
      sqDistQ (pixels.getD i (0, 0, 0))
        ((newCentroids pixels (assignAll pixels c) c.length).getD j (0, 0, 0)) :=
    Finset.sum_congr rfl (fun i hi => by rw [hfib i hi])
  have hrhs : ∑ i ∈ (Finset.range pixels.length).filter
      (fun i => (assignAll pixels c).getD i 0 = j),
      sqDistQ (pixels.getD i (0, 0, 0))
        (c.getD ((assignAll pixels c).getD i 0) (0, 0, 0)) =
      ∑ i ∈ (Finset.range pixels.length).filter
      (fun i => (assignAll pixels c).getD i 0 = j),
      sqDistQ (pixels.getD i (0, 0, 0)) (c.getD j (0, 0, 0)) :=
    Finset.sum_congr rfl (fun i hi => by rw [hfib i hi])
  rw [hlhs, hrhs]
  set S := (Finset.range pixels.length).filter
    (fun i => (assignAll pixels c).getD i 0 = j) with hS
  rcases S.eq_empty_or_nonempty with hSe | hSne
  · rw [hSe]
    simp
  · have hcnt : clusterCount pixels.length (assignAll pixels c) j = S.card := rfl
    have hcnt0 : clusterCount pixels.length (assignAll pixels c) j ≠ 0 := by
      rw [hcnt]
      exact (Finset.card_pos.mpr hSne).ne'
    have hcs : ∀ ch : ℚ × ℚ × ℚ → ℚ, clusterSum pixels (assignAll pixels c) j ch =
        ∑ i ∈ S, ch (pixels.getD i (0, 0, 0)) := by
      intro ch
      unfold clusterSum
      rw [hS]
      exact (Finset.sum_filter _ _).symm
    have hc2j : (newCentroids pixels (assignAll pixels c) c.length).getD j (0, 0, 0) =
        ((∑ i ∈ S, (pixels.getD i (0, 0, 0)).1) / S.card,
         (∑ i ∈ S, (pixels.getD i (0, 0, 0)).2.1) / S.card,
         (∑ i ∈ S, (pixels.getD i (0, 0, 0)).2.2) / S.card) := by
      unfold newCentroids
      rw [rangeMap_getDA _ _ _ _ (Finset.mem_range.mp hj)]
      dsimp only
      rw [if_neg hcnt0, hcnt, hcs (fun p => p.1), hcs (fun p => p.2.1),
        hcs (fun p => p.2.2)]
    rw [hc2j]
    exact sum_sqDistQ_mean_le S (fun i => pixels.getD i (0, 0, 0))
      (c.getD j (0, 0, 0)) hSne

/-- C4 (amended): across consecutive iterations of the k means loop the
total intra cluster SQUARED distance never increases: the assignment step
minimizes each term over the current centroids, and the channel wise mean
minimizes the summed squared distance of each cluster.  (The unsquared
total distance of the claim can increase; see the counterexample.) -/
theorem kmeans_C4 (pixels cents : List (ℚ × ℚ × ℚ)) (hk : cents ≠ []) :
    intraClusterSqDist pixels (kMeansStep pixels (kMeansStep pixels cents).2).1
      (kMeansStep pixels (kMeansStep pixels cents).2).2 ≤
    intraClusterSqDist pixels (kMeansStep pixels cents).1
      (kMeansStep pixels cents).2 := by
  have hc1len : (kMeansStep pixels cents).2.length = cents.length := by
    simp [kMeansStep, newCentroids_length]
  have hc1ne : (kMeansStep pixels cents).2 ≠ [] := by
    apply List.ne_nil_of_length_pos
    rw [hc1len]
    exact List.length_pos.mpr hk
  have haPrev : ∀ i < pixels.length,
      (kMeansStep pixels cents).1.getD i 0 < (kMeansStep pixels cents).2.length := by
    intro i hi
    rw [hc1len]
    have h1 : (kMeansStep pixels cents).1 = assignAll pixels cents := rfl
    rw [h1, assignAll_getD pixels cents i hi]
    exact assignPixel_lt _ _ hk
  exact step_cost_le pixels (kMeansStep pixels cents).1 (kMeansStep pixels cents).2
    hc1ne haPrev

/-- Witness for C4 on a one pixel, one centroid instance. -/
theorem kmeans_C4_witness :
    ([((0:ℚ), (0:ℚ), (0:ℚ))] : List (ℚ × ℚ × ℚ)) ≠ [] ∧
    intraClusterSqDist [((1:ℚ), 0, 0)]
      (kMeansStep [((1:ℚ), 0, 0)] (kMeansStep [((1:ℚ), 0, 0)] [(0, 0, 0)]).2).1
      (kMeansStep [((1:ℚ), 0, 0)] (kMeansStep [((1:ℚ), 0, 0)] [(0, 0, 0)]).2).2 ≤
    intraClusterSqDist [((1:ℚ), 0, 0)]
      (kMeansStep [((1:ℚ), 0, 0)] [(0, 0, 0)]).1
      (kMeansStep [((1:ℚ), 0, 0)] [(0, 0, 0)]).2 :=
  ⟨by simp, kmeans_C4 [((1:ℚ), 0, 0)] [(0, 0, 0)] (by simp)⟩

theorem eucDist_1d (a b : ℚ) :
    euclideanDistance (a, 0, 0) (b, 0, 0) = |(a : ℝ) - (b : ℝ)| := by
  unfold euclideanDistance sqDistQ
  push_cast
  rw [show ((a:ℝ) - b)^2 + ((0:ℝ) - 0)^2 + ((0:ℝ) - 0)^2 = ((a:ℝ) - b)^2 by ring]
  exact Real.sqrt_sq_eq_abs _

theorem assignPixel_pair (p c0 c1 : ℚ × ℚ × ℚ) :
    assignPixel p [c0, c1] =
      if euclideanDistance p c1 < euclideanDistance p c0 then 1 else 0 := by
  unfold assignPixel
  have hr : List.range' 1 ([c0, c1].length - 1) 1 = [1] := rfl
  rw [hr]
  simp only [List.foldl_cons, List.foldl_nil, List.getD_cons_succ, List.getD_cons_zero]
  by_cases hcond : euclideanDistance p c1 < euclideanDistance p c0
  · rw [if_pos hcond, if_pos hcond]
  · rw [if_neg hcond, if_neg hcond]

theorem kmtest_a1 :
    assignAll [((0:ℚ), (0:ℚ), (0:ℚ)), (0,0,0), (10,0,0), (11,0,0), (41,0,0)]
      [((0:ℚ),(0:ℚ),(0:ℚ)), (11,0,0)] = [0,0,1,1,1] := by
  unfold assignAll
  simp only [List.map_cons, List.map_nil, assignPixel_pair, eucDist_1d]
  norm_num

theorem kmtest_c1 :
    newCentroids [((0:ℚ), (0:ℚ), (0:ℚ)), (0,0,0), (10,0,0), (11,0,0), (41,0,0)]
      [0,0,1,1,1] 2 = [(0,0,0), (62/3,0,0)] := by
  have hlen : ([((0:ℚ), (0:ℚ), (0:ℚ)), (0,0,0), (10,0,0), (11,0,0), (41,0,0)] :
      List (ℚ × ℚ × ℚ)).length = 5 := rfl
  have h0 : clusterCount 5 [0,0,1,1,1] 0 = 2 := by decide
  have h1 : clusterCount 5 [0,0,1,1,1] 1 = 3 := by decide
  have hs00 : clusterSum [((0:ℚ), (0:ℚ), (0:ℚ)), (0,0,0), (10,0,0), (11,0,0), (41,0,0)]
      [0,0,1,1,1] 0 (fun p => p.1) = 0 := by
    unfold clusterSum
    norm_num [Finset.sum_range_succ]
  have hs01 : clusterSum [((0:ℚ), (0:ℚ), (0:ℚ)), (0,0,0), (10,0,0), (11,0,0), (41,0,0)]
      [0,0,1,1,1] 0 (fun p => p.2.1) = 0 := by
    unfold clusterSum
    norm_num [Finset.sum_range_succ]
  have hs02 : clusterSum [((0:ℚ), (0:ℚ), (0:ℚ)), (0,0,0), (10,0,0), (11,0,0), (41,0,0)]
      [0,0,1,1,1] 0 (fun p => p.2.2) = 0 := by
    unfold clusterSum
    norm_num [Finset.sum_range_succ]
  have hs10 : clusterSum [((0:ℚ), (0:ℚ), (0:ℚ)), (0,0,0), (10,0,0), (11,0,0), (41,0,0)]
      [0,0,1,1,1] 1 (fun p => p.1) = 62 := by
    unfold clusterSum
    norm_num [Finset.sum_range_succ]
  have hs11 : clusterSum [((0:ℚ), (0:ℚ), (0:ℚ)), (0,0,0), (10,0,0), (11,0,0), (41,0,0)]
      [0,0,1,1,1] 1 (fun p => p.2.1) = 0 := by
    unfold clusterSum
    norm_num [Finset.sum_range_succ]
  have hs12 : clusterSum [((0:ℚ), (0:ℚ), (0:ℚ)), (0,0,0), (10,0,0), (11,0,0), (41,0,0)]
      [0,0,1,1,1] 1 (fun p => p.2.2) = 0 := by
    unfold clusterSum
    norm_num [Finset.sum_range_succ]
  unfold newCentroids
  rw [hlen, show List.range 2 = [0, 1] from rfl]
  simp only [List.map_cons, List.map_nil]
  rw [h0, h1, hs00, hs01, hs02, hs10, hs11, hs12]
  norm_num
theorem kmtest_a2 :
    assignAll [((0:ℚ), (0:ℚ), (0:ℚ)), (0,0,0), (10,0,0), (11,0,0), (41,0,0)]
      [((0:ℚ),(0:ℚ),(0:ℚ)), (62/3,0,0)] = [0,0,0,1,1] := by
  unfold assignAll
  simp only [List.map_cons, List.map_nil, assignPixel_pair, eucDist_1d]
  norm_num [abs_of_nonneg, abs_of_nonpos]

theorem kmtest_c2 :
    newCentroids [((0:ℚ), (0:ℚ), (0:ℚ)), (0,0,0), (10,0,0), (11,0,0), (41,0,0)]
      [0,0,0,1,1] 2 = [(10/3,0,0), (26,0,0)] := by
  have hlen : ([((0:ℚ), (0:ℚ), (0:ℚ)), (0,0,0), (10,0,0), (11,0,0), (41,0,0)] :
      List (ℚ × ℚ × ℚ)).length = 5 := rfl
  have h0 : clusterCount 5 [0,0,0,1,1] 0 = 3 := by decide
  have h1 : clusterCount 5 [0,0,0,1,1] 1 = 2 := by decide
  have hs00 : clusterSum [((0:ℚ), (0:ℚ), (0:ℚ)), (0,0,0), (10,0,0), (11,0,0), (41,0,0)]
      [0,0,0,1,1] 0 (fun p => p.1) = 10 := by
    unfold clusterSum
    norm_num [Finset.sum_range_succ]
  have hs01 : clusterSum [((0:ℚ), (0:ℚ), (0:ℚ)), (0,0,0), (10,0,0), (11,0,0), (41,0,0)]
      [0,0,0,1,1] 0 (fun p => p.2.1) = 0 := by
    unfold clusterSum
    norm_num [Finset.sum_range_succ]
  have hs02 : clusterSum [((0:ℚ), (0:ℚ), (0:ℚ)), (0,0,0), (10,0,0), (11,0,0), (41,0,0)]
      [0,0,0,1,1] 0 (fun p => p.2.2) = 0 := by
    unfold clusterSum
    norm_num [Finset.sum_range_succ]
  have hs10 : clusterSum [((0:ℚ), (0:ℚ), (0:ℚ)), (0,0,0), (10,0,0), (11,0,0), (41,0,0)]
      [0,0,0,1,1] 1 (fun p => p.1) = 52 := by
    unfold clusterSum
    norm_num [Finset.sum_range_succ]
  have hs11 : clusterSum [((0:ℚ), (0:ℚ), (0:ℚ)), (0,0,0), (10,0,0), (11,0,0), (41,0,0)]
      [0,0,0,1,1] 1 (fun p => p.2.1) = 0 := by
    unfold clusterSum
    norm_num [Finset.sum_range_succ]
  have hs12 : clusterSum [((0:ℚ), (0:ℚ), (0:ℚ)), (0,0,0), (10,0,0), (11,0,0), (41,0,0)]
      [0,0,0,1,1] 1 (fun p => p.2.2) = 0 := by
    unfold clusterSum
    norm_num [Finset.sum_range_succ]
  unfold newCentroids
  rw [hlen, show List.range 2 = [0, 1] from rfl]
  simp only [List.map_cons, List.map_nil]
  rw [h0, h1, hs00, hs01, hs02, hs10, hs11, hs12]
  norm_num

theorem kmtest_E1 :
    intraClusterDist [((0:ℚ), (0:ℚ), (0:ℚ)), (0,0,0), (10,0,0), (11,0,0), (41,0,0)]
      [0,0,1,1,1] [((0:ℚ),(0:ℚ),(0:ℚ)), (62/3,0,0)] = 122/3 := by
  unfold intraClusterDist
  rw [show ([((0:ℚ), (0:ℚ), (0:ℚ)), (0,0,0), (10,0,0), (11,0,0), (41,0,0)] :
      List (ℚ × ℚ × ℚ)).length = 5 from rfl]
  have hp0 : ([((0:ℚ), (0:ℚ), (0:ℚ)), (0,0,0), (10,0,0), (11,0,0), (41,0,0)] :
      List (ℚ × ℚ × ℚ)).getD 0 (0,0,0) = ((0:ℚ), (0:ℚ), (0:ℚ)) := rfl
  have hp1 : ([((0:ℚ), (0:ℚ), (0:ℚ)), (0,0,0), (10,0,0), (11,0,0), (41,0,0)] :
      List (ℚ × ℚ × ℚ)).getD 1 (0,0,0) = ((0:ℚ), (0:ℚ), (0:ℚ)) := rfl
  have hp2 : ([((0:ℚ), (0:ℚ), (0:ℚ)), (0,0,0), (10,0,0), (11,0,0), (41,0,0)] :
      List (ℚ × ℚ × ℚ)).getD 2 (0,0,0) = ((10:ℚ), (0:ℚ), (0:ℚ)) := rfl
  have hp3 : ([((0:ℚ), (0:ℚ), (0:ℚ)), (0,0,0), (10,0,0), (11,0,0), (41,0,0)] :
      List (ℚ × ℚ × ℚ)).getD 3 (0,0,0) = ((11:ℚ), (0:ℚ), (0:ℚ)) := rfl
  have hp4 : ([((0:ℚ), (0:ℚ), (0:ℚ)), (0,0,0), (10,0,0), (11,0,0), (41,0,0)] :
      List (ℚ × ℚ × ℚ)).getD 4 (0,0,0) = ((41:ℚ), (0:ℚ), (0:ℚ)) := rfl
  have hc0 : ([0,0,1,1,1] : List ℕ).getD 0 0 = 0 := rfl
  have hc1 : ([0,0,1,1,1] : List ℕ).getD 1 0 = 0 := rfl
  have hc2 : ([0,0,1,1,1] : List ℕ).getD 2 0 = 1 := rfl
  have hc3 : ([0,0,1,1,1] : List ℕ).getD 3 0 = 1 := rfl
  have hc4 : ([0,0,1,1,1] : List ℕ).getD 4 0 = 1 := rfl
  have hz0 : ([((0:ℚ),(0:ℚ),(0:ℚ)), (62/3,0,0)] :
      List (ℚ × ℚ × ℚ)).getD 0 (0,0,0) = ((0:ℚ), (0:ℚ), (0:ℚ)) := rfl
  have hz1 : ([((0:ℚ),(0:ℚ),(0:ℚ)), (62/3,0,0)] :
      List (ℚ × ℚ × ℚ)).getD 1 (0,0,0) = ((62/3:ℚ), (0:ℚ), (0:ℚ)) := rfl
  rw [Finset.sum_range_succ, Finset.sum_range_succ, Finset.sum_range_succ,
      Finset.sum_range_succ, Finset.sum_range_succ, Finset.sum_range_zero]
  rw [hp0, hp1, hp2, hp3, hp4, hc0, hc1, hc2, hc3, hc4, hz0, hz1]
  simp only [eucDist_1d]
  norm_num [abs_of_nonneg, abs_of_nonpos]

theorem kmtest_E2 :
    intraClusterDist [((0:ℚ), (0:ℚ), (0:ℚ)), (0,0,0), (10,0,0), (11,0,0), (41,0,0)]
      [0,0,0,1,1] [((10/3:ℚ),(0:ℚ),(0:ℚ)), (26,0,0)] = 130/3 := by
  unfold intraClusterDist
  rw [show ([((0:ℚ), (0:ℚ), (0:ℚ)), (0,0,0), (10,0,0), (11,0,0), (41,0,0)] :
      List (ℚ × ℚ × ℚ)).length = 5 from rfl]
  have hp0 : ([((0:ℚ), (0:ℚ), (0:ℚ)), (0,0,0), (10,0,0), (11,0,0), (41,0,0)] :
      List (ℚ × ℚ × ℚ)).getD 0 (0,0,0) = ((0:ℚ), (0:ℚ), (0:ℚ)) := rfl
  have hp1 : ([((0:ℚ), (0:ℚ), (0:ℚ)), (0,0,0), (10,0,0), (11,0,0), (41,0,0)] :
      List (ℚ × ℚ × ℚ)).getD 1 (0,0,0) = ((0:ℚ), (0:ℚ), (0:ℚ)) := rfl
  have hp2 : ([((0:ℚ), (0:ℚ), (0:ℚ)), (0,0,0), (10,0,0), (11,0,0), (41,0,0)] :
      List (ℚ × ℚ × ℚ)).getD 2 (0,0,0) = ((10:ℚ), (0:ℚ), (0:ℚ)) := rfl
  have hp3 : ([((0:ℚ), (0:ℚ), (0:ℚ)), (0,0,0), (10,0,0), (11,0,0), (41,0,0)] :
      List (ℚ × ℚ × ℚ)).getD 3 (0,0,0) = ((11:ℚ), (0:ℚ), (0:ℚ)) := rfl
  have hp4 : ([((0:ℚ), (0:ℚ), (0:ℚ)), (0,0,0), (10,0,0), (11,0,0), (41,0,0)] :
      List (ℚ × ℚ × ℚ)).getD 4 (0,0,0) = ((41:ℚ), (0:ℚ), (0:ℚ)) := rfl
  have hc0 : ([0,0,0,1,1] : List ℕ).getD 0 0 = 0 := rfl
  have hc1 : ([0,0,0,1,1] : List ℕ).getD 1 0 = 0 := rfl
  have hc2 : ([0,0,0,1,1] : List ℕ).getD 2 0 = 0 := rfl
  have hc3 : ([0,0,0,1,1] : List ℕ).getD 3 0 = 1 := rfl
  have hc4 : ([0,0,0,1,1] : List ℕ).getD 4 0 = 1 := rfl
  have hz0 : ([((10/3:ℚ),(0:ℚ),(0:ℚ)), (26,0,0)] :
      List (ℚ × ℚ × ℚ)).getD 0 (0,0,0) = ((10/3:ℚ), (0:ℚ), (0:ℚ)) := rfl
  have hz1 : ([((10/3:ℚ),(0:ℚ),(0:ℚ)), (26,0,0)] :
      List (ℚ × ℚ × ℚ)).getD 1 (0,0,0) = ((26:ℚ), (0:ℚ), (0:ℚ)) := rfl
  rw [Finset.sum_range_succ, Finset.sum_range_succ, Finset.sum_range_succ,
      Finset.sum_range_succ, Finset.sum_range_succ, Finset.sum_range_zero]
  rw [hp0, hp1, hp2, hp3, hp4, hc0, hc1, hc2, hc3, hc4, hz0, hz1]
  simp only [eucDist_1d]
  norm_num [abs_of_nonneg, abs_of_nonpos]

theorem kmtest_step1 :
    kMeansStep [((0:ℚ), (0:ℚ), (0:ℚ)), (0,0,0), (10,0,0), (11,0,0), (41,0,0)]
      [((0:ℚ),(0:ℚ),(0:ℚ)), (11,0,0)] = ([0,0,1,1,1], [(0,0,0), (62/3,0,0)]) := by
  unfold kMeansStep
  rw [kmtest_a1]
  rw [show ([((0:ℚ),(0:ℚ),(0:ℚ)), (11,0,0)] : List (ℚ × ℚ × ℚ)).length = 2 from rfl]
  rw [kmtest_c1]

theorem kmtest_step2 :
    kMeansStep [((0:ℚ), (0:ℚ), (0:ℚ)), (0,0,0), (10,0,0), (11,0,0), (41,0,0)]
      [((0:ℚ),(0:ℚ),(0:ℚ)), (62/3,0,0)] = ([0,0,0,1,1], [(10/3,0,0), (26,0,0)]) := by
  unfold kMeansStep
  rw [kmtest_a2]
  rw [show ([((0:ℚ),(0:ℚ),(0:ℚ)), (62/3,0,0)] : List (ℚ × ℚ × ℚ)).length = 2 from rfl]
  rw [kmtest_c2]

/-- C4 counterexample: with pixels (0,0,0),(0,0,0),(10,0,0),(11,0,0),(41,0,0)
and initial centroids (0,0,0),(11,0,0) (both are pixels, as the random
seeding produces), the first iteration is not converged at threshold 1,
yet the total intra-cluster distance strictly INCREASES from the first
iteration (122/3) to the second (130/3). -/
theorem kmeans_dist_cex_C4 :
    ¬ convergedP [((0:ℚ),(0:ℚ),(0:ℚ)), (11,0,0)]
        (kMeansStep [((0:ℚ), (0:ℚ), (0:ℚ)), (0,0,0), (10,0,0), (11,0,0), (41,0,0)]
          [((0:ℚ),(0:ℚ),(0:ℚ)), (11,0,0)]).2 1 ∧
    intraClusterDist [((0:ℚ), (0:ℚ), (0:ℚ)), (0,0,0), (10,0,0), (11,0,0), (41,0,0)]
        (kMeansStep [((0:ℚ), (0:ℚ), (0:ℚ)), (0,0,0), (10,0,0), (11,0,0), (41,0,0)]
          [((0:ℚ),(0:ℚ),(0:ℚ)), (11,0,0)]).1
        (kMeansStep [((0:ℚ), (0:ℚ), (0:ℚ)), (0,0,0), (10,0,0), (11,0,0), (41,0,0)]
          [((0:ℚ),(0:ℚ),(0:ℚ)), (11,0,0)]).2 <
      intraClusterDist [((0:ℚ), (0:ℚ), (0:ℚ)), (0,0,0), (10,0,0), (11,0,0), (41,0,0)]
        (kMeansStep [((0:ℚ), (0:ℚ), (0:ℚ)), (0,0,0), (10,0,0), (11,0,0), (41,0,0)]
          (kMeansStep [((0:ℚ), (0:ℚ), (0:ℚ)), (0,0,0), (10,0,0), (11,0,0), (41,0,0)]
            [((0:ℚ),(0:ℚ),(0:ℚ)), (11,0,0)]).2).1
        (kMeansStep [((0:ℚ), (0:ℚ), (0:ℚ)), (0,0,0), (10,0,0), (11,0,0), (41,0,0)]
          (kMeansStep [((0:ℚ), (0:ℚ), (0:ℚ)), (0,0,0), (10,0,0), (11,0,0), (41,0,0)]
            [((0:ℚ),(0:ℚ),(0:ℚ)), (11,0,0)]).2).2 := by
  rw [kmtest_step1]
  constructor
  · intro h
    have h1 := h 1 (by norm_num)
    rw [show ([((0:ℚ),(0:ℚ),(0:ℚ)), (11,0,0)] :
        List (ℚ × ℚ × ℚ)).getD 1 (0,0,0) = ((11:ℚ), (0:ℚ), (0:ℚ)) from rfl,
      show (([0,0,1,1,1], [((0:ℚ),(0:ℚ),(0:ℚ)), (62/3,0,0)]) :
        List ℕ × List (ℚ × ℚ × ℚ)).2.getD 1 (0,0,0) = ((62/3:ℚ), (0:ℚ), (0:ℚ)) from rfl,
      eucDist_1d] at h1
    push_cast at h1
    rw [abs_of_nonpos (by norm_num)] at h1
    norm_num at h1
  · rw [show (([0,0,1,1,1], [((0:ℚ),(0:ℚ),(0:ℚ)), (62/3,0,0)]) :
        List ℕ × List (ℚ × ℚ × ℚ)).2 = [((0:ℚ),(0:ℚ),(0:ℚ)), (62/3,0,0)] from rfl]
    rw [kmtest_step2]
    rw [show (([0,0,1,1,1], [((0:ℚ),(0:ℚ),(0:ℚ)), (62/3,0,0)]) :
        List ℕ × List (ℚ × ℚ × ℚ)).1 = [0,0,1,1,1] from rfl]
    rw [show (([0,0,0,1,1], [((10/3:ℚ),(0:ℚ),(0:ℚ)), (26,0,0)]) :
        List ℕ × List (ℚ × ℚ × ℚ)).1 = [0,0,0,1,1] from rfl]
    rw [show (([0,0,0,1,1], [((10/3:ℚ),(0:ℚ),(0:ℚ)), (26,0,0)]) :
        List ℕ × List (ℚ × ℚ × ℚ)).2 = [((10/3:ℚ),(0:ℚ),(0:ℚ)), (26,0,0)] from rfl]
    rw [kmtest_E1, kmtest_E2]
    norm_num

/-! ### combineSceneWalls (src/unnamed/part_005) -/

/-- A Foundry wall document restricted to the fields read by
combineSceneWalls; document identity (JS object identity inside the Sets)
is modelled by the id field.  The wall coordinates c are (c0, c1, c2, c3). -/
structure WallDoc where
  id : ℕ
  c0 : ℚ
  c1 : ℚ
  c2 : ℚ
  c3 : ℚ
  door : ℕ
  dir : ℕ
  light : ℕ
  sight : ℕ
  sound : ℕ
  move : ℕ
  thresholdAttenuation : Bool
  thresholdLight : Option ℕ
  thresholdSight : Option ℕ
  thresholdSound : Option ℕ
deriving DecidableEq

/-- Foundry core constant CONST.WALL_DOOR_TYPES.NONE (environment value). -/
def WALL_DOOR_TYPES_NONE : ℕ := 0

/-- Foundry core constant CONST.WALL_DIRECTIONS.BOTH (environment value). -/
def WALL_DIRECTIONS_BOTH : ℕ := 0

/-- Foundry core constant CONST.WALL_SENSE_TYPES.NORMAL (environment value). -/
def WALL_SENSE_TYPES_NORMAL : ℕ := 20

/-- Foundry core constant CONST.WALL_MOVEMENT_TYPES.NORMAL (environment value). -/
def WALL_MOVEMENT_TYPES_NORMAL : ℕ := 20

/-- The filter predicate of combineSceneWalls: a wall that is just a basic
wall (no door, both directions, normal senses and movement, no threshold). -/
def isPlain (w : WallDoc) : Bool :=
  w.door == WALL_DOOR_TYPES_NONE &&
  w.dir == WALL_DIRECTIONS_BOTH &&
  w.light == WALL_SENSE_TYPES_NORMAL &&
  w.sight == WALL_SENSE_TYPES_NORMAL &&
  w.sound == WALL_SENSE_TYPES_NORMAL &&
  w.move == WALL_MOVEMENT_TYPES_NORMAL &&
  !w.thresholdAttenuation &&
  w.thresholdLight == none &&
  w.thresholdSight == none &&
  w.thresholdSound == none

open Classical in
/-- Math.atan2 restricted to nonnegative arguments, as combineSceneWalls
calls it on (|dy|, |dx|): for x > 0 it is arctan (y / x), for x = 0 it is
pi/2 when y > 0 and 0 when y = 0. -/
noncomputable def atan2nn (y x : ℝ) : ℝ :=
  if x = 0 then (if y = 0 then 0 else Real.pi / 2) else Real.arctan (y / x)

/-- The direction bucket of a wall:
Math.round(Math.atan2(Math.abs(c3 - c1), Math.abs(c2 - c0)) * 30). -/
noncomputable def wallDir (w : WallDoc) : ℤ :=
  jsMathRound (atan2nn |(w.c3 : ℝ) - (w.c1 : ℝ)| |(w.c2 : ℝ) - (w.c0 : ℝ)| * 30)

/-- The wallMap key of the first endpoint:
`round(c0),round(c1),dir` as an integer triple. -/
noncomputable def keyA (w : WallDoc) : ℤ × ℤ × ℤ :=
  (jsMathRound w.c0, jsMathRound w.c1, wallDir w)

/-- The wallMap key of the second endpoint:
`round(c2),round(c3),dir` as an integer triple. -/
noncomputable def keyB (w : WallDoc) : ℤ × ℤ × ℤ :=
  (jsMathRound w.c2, jsMathRound w.c3, wallDir w)

/-- wallMap[k] ??= new Set(): append an empty entry for an absent key.
The map is an insertion ordered association list, as Object.entries
iterates string keys in insertion order. -/
def ensureKey (m : List ((ℤ × ℤ × ℤ) × List WallDoc)) (k : ℤ × ℤ × ℤ) :
    List ((ℤ × ℤ × ℤ) × List WallDoc) :=
  if k ∈ m.map (fun e => e.1) then m else m ++ [(k, [])]

/-- wallMap[k].add(w): Sets keep insertion order and deduplicate by
object identity (modelled by id). -/
def addToKey (m : List ((ℤ × ℤ × ℤ) × List WallDoc)) (k : ℤ × ℤ × ℤ)
    (w : WallDoc) : List ((ℤ × ℤ × ℤ) × List WallDoc) :=
  m.map (fun e =>
    if e.1 = k then
      (e.1, if w.id ∈ e.2.map (fun v => v.id) then e.2 else e.2 ++ [w])
    else e)

/-- Building wallMap: for each wall, ensure both endpoint keys exist and
add the wall to both entries (source order: ??= a, ??= b, add a, add b). -/
noncomputable def buildWallMap (walls : List WallDoc) :
    List ((ℤ × ℤ × ℤ) × List WallDoc) :=
  walls.foldl (fun m w =>
    addToKey (addToKey (ensureKey (ensureKey m (keyA w)) (keyB w)) (keyA w) w)
      (keyB w) w) []

/-- wallMap[k] lookup (empty when the key is absent). -/
def lookupKey : List ((ℤ × ℤ × ℤ) × List WallDoc) → ℤ × ℤ × ℤ → List WallDoc
  | [], _ => []
  | e :: t, k => if e.1 = k then e.2 else lookupKey t k

/-- The recursive visit of combineSceneWalls, with explicit fuel bounding
the recursion depth (each recursive descent first marks an unvisited key,
so depth is at most the number of keys plus one and the fuel used below,
2 * walls + 2, never runs out).  State is (set, visitedK), both insertion
ordered lists. -/
noncomputable def visit (m : List ((ℤ × ℤ × ℤ) × List WallDoc)) :
    ℕ → WallDoc → List WallDoc × List (ℤ × ℤ × ℤ) →
      List WallDoc × List (ℤ × ℤ × ℤ)
  | 0, _, st => st
  | fuel + 1, w, st =>
    let set1 := if w.id ∈ st.1.map (fun v => v.id) then st.1 else st.1 ++ [w]
    let st2 :=
      if keyA w ∈ st.2 then (set1, st.2)
      else (lookupKey m (keyA w)).foldl (fun s v => visit m fuel v s)
        (set1, st.2 ++ [keyA w])
    if keyB w ∈ st2.2 then st2
    else (lookupKey m (keyB w)).foldl (fun s v => visit m fuel v s)
      (st2.1, st2.2 ++ [keyB w])

/-- The outer loop over Object.entries(wallMap): skip visited keys,
otherwise grow a fresh set by visiting every wall of the entry, and push
the set. -/
noncomputable def wallSetsOf (m : List ((ℤ × ℤ × ℤ) × List WallDoc))
    (fuel : ℕ) : List (List WallDoc) :=
  (m.foldl (fun (acc : List (List WallDoc) × List (ℤ × ℤ × ℤ)) e =>
    if e.1 ∈ acc.2 then acc
    else
      (acc.1 ++ [(e.2.foldl (fun s v => visit m fuel v s) ([], acc.2)).1],
        (e.2.foldl (fun s v => visit m fuel v s) ([], acc.2)).2)) ([], [])).1

/-- Math.min over a spread coordinate list (the sets are never empty, so
the empty case value is irrelevant). -/
def qMin : List ℚ → ℚ
  | [] => 0
  | a :: t => t.foldl min a

/-- Math.max over a spread coordinate list. -/
def qMax : List ℚ → ℚ
  | [] => 0
  | a :: t => t.foldl max a

/-- The bounding box [x1, y1, x2, y2] of a set of walls. -/
def bboxOf (set : List WallDoc) : ℚ × ℚ × ℚ × ℚ :=
  (qMin (set.map (fun w => min w.c0 w.c2)),
   qMin (set.map (fun w => min w.c1 w.c3)),
   qMax (set.map (fun w => max w.c0 w.c2)),
   qMax (set.map (fun w => max w.c1 w.c3)))

/-- combineSceneWalls: filter the plain walls, build the endpoint key map,
collect the connected sets and replace each set with its bounding box
(the deletion of the old documents and creation of the new ones is
abstracted into returning the new coordinate quadruples). -/
noncomputable def combineSceneWalls (walls : List WallDoc) :
    List (ℚ × ℚ × ℚ × ℚ) :=
  (wallSetsOf (buildWallMap (walls.filter (fun w => isPlain w)))
    (2 * (walls.filter (fun w => isPlain w)).length + 2)).map bboxOf

theorem wallDir_horizontal (w : WallDoc) (h : w.c1 = w.c3) : wallDir w = 0 := by
  unfold wallDir atan2nn
  rw [h]
  simp only [sub_self, abs_zero]
  by_cases hx : |(w.c2 : ℝ) - (w.c0 : ℝ)| = 0
  · rw [if_pos hx]
    simp only [if_true, ite_true]
    unfold jsMathRound
    norm_num
  · rw [if_neg hx, zero_div, Real.arctan_zero]
    unfold jsMathRound
    norm_num

theorem combineTwo_noshare (w1 w2 : WallDoc)
    (hp1 : isPlain w1 = true) (hp2 : isPlain w2 = true) (hid : w1.id ≠ w2.id)
    (haa : keyA w1 ≠ keyA w2) (hab : keyA w1 ≠ keyB w2)
    (hba : keyB w1 ≠ keyA w2) (hbb : keyB w1 ≠ keyB w2) :
    combineSceneWalls [w1, w2] =
      [(min w1.c0 w1.c2, min w1.c1 w1.c3, max w1.c0 w1.c2, max w1.c1 w1.c3),
       (min w2.c0 w2.c2, min w2.c1 w2.c3, max w2.c0 w2.c2, max w2.c1 w2.c3)] := by
  have hfilter : ([w1, w2].filter (fun w => isPlain w)) = [w1, w2] := by
    simp [hp1, hp2]
  unfold combineSceneWalls
  rw [hfilter]
  by_cases e1 : keyA w1 = keyB w1
  · by_cases e2 : keyA w2 = keyB w2
    · have hmap : buildWallMap [w1, w2] = [(keyB w1, [w1]), (keyB w2, [w2])] := by
        unfold buildWallMap
        simp [ensureKey, addToKey, e1, e2, hbb, Ne.symm hbb]
      rw [hmap]
      simp [wallSetsOf, visit, lookupKey, bboxOf, qMin, qMax, e1, e2,
        hid, Ne.symm hid, hbb, Ne.symm hbb]
    · have hmap : buildWallMap [w1, w2] =
          [(keyB w1, [w1]), (keyA w2, [w2]), (keyB w2, [w2])] := by
        unfold buildWallMap
        simp [ensureKey, addToKey, e1, e2, Ne.symm e2, hba, hbb,
          Ne.symm hba, Ne.symm hbb]
      rw [hmap]
      simp [wallSetsOf, visit, lookupKey, bboxOf, qMin, qMax, e1, e2, Ne.symm e2,
        hid, Ne.symm hid, hba, hbb, Ne.symm hba, Ne.symm hbb]
  · by_cases e2 : keyA w2 = keyB w2
    · have hmap : buildWallMap [w1, w2] =
          [(keyA w1, [w1]), (keyB w1, [w1]), (keyB w2, [w2])] := by
        unfold buildWallMap
        simp [ensureKey, addToKey, e1, Ne.symm e1, e2, hab, hbb,
          Ne.symm hab, Ne.symm hbb]
      rw [hmap]
      simp [wallSetsOf, visit, lookupKey, bboxOf, qMin, qMax, e1, Ne.symm e1, e2,
        hid, Ne.symm hid, hab, hbb, Ne.symm hab, Ne.symm hbb]
    · have hmap : buildWallMap [w1, w2] =
          [(keyA w1, [w1]), (keyB w1, [w1]), (keyA w2, [w2]), (keyB w2, [w2])] := by
        unfold buildWallMap
        simp [ensureKey, addToKey, e1, e2, haa, hab, hba, hbb, Ne.symm e1,
          Ne.symm e2, Ne.symm haa, Ne.symm hab, Ne.symm hba, Ne.symm hbb]
      rw [hmap]
      simp [wallSetsOf, visit, lookupKey, bboxOf, qMin, qMax, hid, Ne.symm hid,
        haa, hab, hba, hbb, e1, e2,
        Ne.symm haa, Ne.symm hab, Ne.symm hba, Ne.symm hbb, Ne.symm e1, Ne.symm e2]

theorem combineTwo_sharedAA (w1 w2 : WallDoc)
    (hp1 : isPlain w1 = true) (hp2 : isPlain w2 = true) (hid : w1.id ≠ w2.id)
    (hshare : keyA w1 = keyA w2)
    (h11 : keyA w1 ≠ keyB w1) (hab : keyA w1 ≠ keyB w2) (hbb : keyB w1 ≠ keyB w2) :
    combineSceneWalls [w1, w2] =
      [(min (min w1.c0 w1.c2) (min w2.c0 w2.c2),
        min (min w1.c1 w1.c3) (min w2.c1 w2.c3),
        max (max w1.c0 w1.c2) (max w2.c0 w2.c2),
        max (max w1.c1 w1.c3) (max w2.c1 w2.c3))] := by
  have hba2 : keyB w1 ≠ keyA w2 := by
    rw [← hshare]
    exact Ne.symm h11
  have h22 : keyA w2 ≠ keyB w2 := by
    rw [← hshare]
    exact hab
  have hfilter : ([w1, w2].filter (fun w => isPlain w)) = [w1, w2] := by
    simp [hp1, hp2]
  unfold combineSceneWalls
  rw [hfilter]
  have hmap : buildWallMap [w1, w2] =
      [(keyA w2, [w1, w2]), (keyB w1, [w1]), (keyB w2, [w2])] := by
    unfold buildWallMap
    simp [ensureKey, addToKey, hshare, hid, Ne.symm hid, hba2, h22, hbb,
      Ne.symm hba2, Ne.symm h22, Ne.symm hbb]
  rw [hmap]
  simp [wallSetsOf, visit, lookupKey, bboxOf, qMin, qMax, hshare, hid, Ne.symm hid,
    hba2, h22, hbb, Ne.symm hba2, Ne.symm h22, Ne.symm hbb]

theorem combineTwo_sharedAB (w1 w2 : WallDoc)
    (hp1 : isPlain w1 = true) (hp2 : isPlain w2 = true) (hid : w1.id ≠ w2.id)
    (hshare : keyA w1 = keyB w2)
    (h11 : keyA w1 ≠ keyB w1) (haa : keyA w1 ≠ keyA w2) (hba : keyB w1 ≠ keyA w2) :
    combineSceneWalls [w1, w2] =
      [(min (min w1.c0 w1.c2) (min w2.c0 w2.c2),
        min (min w1.c1 w1.c3) (min w2.c1 w2.c3),
        max (max w1.c0 w1.c2) (max w2.c0 w2.c2),
        max (max w1.c1 w1.c3) (max w2.c1 w2.c3))] := by
  have hb2b1 : keyB w2 ≠ keyB w1 := by
    rw [← hshare]
    exact h11
  have h22s : keyB w2 ≠ keyA w2 := by
    rw [← hshare]
    exact haa
  have hfilter : ([w1, w2].filter (fun w => isPlain w)) = [w1, w2] := by
    simp [hp1, hp2]
  unfold combineSceneWalls
  rw [hfilter]
  have hmap : buildWallMap [w1, w2] =
      [(keyB w2, [w1, w2]), (keyB w1, [w1]), (keyA w2, [w2])] := by
    unfold buildWallMap
    simp [ensureKey, addToKey, hshare, hid, Ne.symm hid, hb2b1, h22s, hba,
      Ne.symm hb2b1, Ne.symm h22s, Ne.symm hba]
  rw [hmap]
  simp [wallSetsOf, visit, lookupKey, bboxOf, qMin, qMax, hshare, hid, Ne.symm hid,
    hb2b1, h22s, hba, Ne.symm hb2b1, Ne.symm h22s, Ne.symm hba]

theorem combineTwo_sharedBA (w1 w2 : WallDoc)
    (hp1 : isPlain w1 = true) (hp2 : isPlain w2 = true) (hid : w1.id ≠ w2.id)
    (hshare : keyB w1 = keyA w2)
    (h11 : keyA w1 ≠ keyB w1) (hab : keyA w1 ≠ keyB w2) (hbb : keyB w1 ≠ keyB w2) :
    combineSceneWalls [w1, w2] =
      [(min (min w1.c0 w1.c2) (min w2.c0 w2.c2),
        min (min w1.c1 w1.c3) (min w2.c1 w2.c3),
        max (max w1.c0 w1.c2) (max w2.c0 w2.c2),
        max (max w1.c1 w1.c3) (max w2.c1 w2.c3))] := by
  have h11a : keyA w1 ≠ keyA w2 := by
    rw [← hshare]
    exact h11
  have hbb2 : keyA w2 ≠ keyB w2 := by
    rw [← hshare]
    exact hbb
  have hfilter : ([w1, w2].filter (fun w => isPlain w)) = [w1, w2] := by
    simp [hp1, hp2]
  unfold combineSceneWalls
  rw [hfilter]
  have hmap : buildWallMap [w1, w2] =
      [(keyA w1, [w1]), (keyA w2, [w1, w2]), (keyB w2, [w2])] := by
    unfold buildWallMap
    simp [ensureKey, addToKey, hshare, hid, Ne.symm hid, h11a, hab, hbb2,
      Ne.symm h11a, Ne.symm hab, Ne.symm hbb2]
  rw [hmap]
  simp [wallSetsOf, visit, lookupKey, bboxOf, qMin, qMax, hshare, hid, Ne.symm hid,
    h11a, hab, hbb2, Ne.symm h11a, Ne.symm hab, Ne.symm hbb2]

theorem combineTwo_sharedBB (w1 w2 : WallDoc)
    (hp1 : isPlain w1 = true) (hp2 : isPlain w2 = true) (hid : w1.id ≠ w2.id)
    (hshare : keyB w1 = keyB w2)
    (h11 : keyA w1 ≠ keyB w1) (haa : keyA w1 ≠ keyA w2) (hba : keyB w1 ≠ keyA w2) :
    combineSceneWalls [w1, w2] =
      [(min (min w1.c0 w1.c2) (min w2.c0 w2.c2),
        min (min w1.c1 w1.c3) (min w2.c1 w2.c3),
        max (max w1.c0 w1.c2) (max w2.c0 w2.c2),
        max (max w1.c1 w1.c3) (max w2.c1 w2.c3))] := by
  have h11b : keyA w1 ≠ keyB w2 := by
    rw [← hshare]
    exact h11
  have h22b : keyB w2 ≠ keyA w2 := by
    rw [← hshare]
    exact hba
  have hfilter : ([w1, w2].filter (fun w => isPlain w)) = [w1, w2] := by
    simp [hp1, hp2]
  unfold combineSceneWalls
  rw [hfilter]
  have hmap : buildWallMap [w1, w2] =
      [(keyA w1, [w1]), (keyB w2, [w1, w2]), (keyA w2, [w2])] := by
    unfold buildWallMap
    simp [ensureKey, addToKey, hshare, hid, Ne.symm hid, h11b, h22b, haa,
      Ne.symm h11b, Ne.symm h22b, Ne.symm haa]
  rw [hmap]
  simp [wallSetsOf, visit, lookupKey, bboxOf, qMin, qMax, hshare, hid, Ne.symm hid,
    h11b, h22b, haa, Ne.symm h11b, Ne.symm h22b, Ne.symm haa]

/-- C3: combineSceneWalls on exactly two plain walls.  (A) If they share
exactly one rounded endpoint key (equal rounded endpoint coordinates and
equal direction bucket round(atan2(|dy|,|dx|)*30)), in any of the four
endpoint pairings, while each wall's own two endpoint keys are distinct,
the output is exactly one segment spanning the min and max x and y over
all four original endpoints.  (B) If the walls share no endpoint key, the
output is the two per-wall bounding boxes [min x, min y, max x, max y];
such a bounding box equals the input segment exactly when the wall's
coordinates are sorted (c0 <= c2 and c1 <= c3), not unconditionally as
claimed. -/
theorem combineWalls_C3 :
    (∀ w1 w2 : WallDoc, isPlain w1 = true → isPlain w2 = true → w1.id ≠ w2.id →
      (keyA w1 = keyA w2 ∨ keyA w1 = keyB w2 ∨ keyB w1 = keyA w2 ∨
        keyB w1 = keyB w2) →
      keyA w1 ≠ keyB w1 → keyA w2 ≠ keyB w2 →
      ¬(keyA w1 = keyA w2 ∧ keyB w1 = keyB w2) →
      ¬(keyA w1 = keyB w2 ∧ keyB w1 = keyA w2) →
      combineSceneWalls [w1, w2] =
        [(min (min w1.c0 w1.c2) (min w2.c0 w2.c2),
          min (min w1.c1 w1.c3) (min w2.c1 w2.c3),
          max (max w1.c0 w1.c2) (max w2.c0 w2.c2),
          max (max w1.c1 w1.c3) (max w2.c1 w2.c3))]) ∧
    (∀ w1 w2 : WallDoc, isPlain w1 = true → isPlain w2 = true → w1.id ≠ w2.id →
      keyA w1 ≠ keyA w2 → keyA w1 ≠ keyB w2 → keyB w1 ≠ keyA w2 →
      keyB w1 ≠ keyB w2 →
      combineSceneWalls [w1, w2] =
        [(min w1.c0 w1.c2, min w1.c1 w1.c3, max w1.c0 w1.c2, max w1.c1 w1.c3),
         (min w2.c0 w2.c2, min w2.c1 w2.c3, max w2.c0 w2.c2, max w2.c1 w2.c3)]) ∧
    (∀ w : WallDoc, bboxOf [w] = (w.c0, w.c1, w.c2, w.c3) ↔
      w.c0 ≤ w.c2 ∧ w.c1 ≤ w.c3) := by
  refine ⟨?_, ?_, ?_⟩
  · intro w1 w2 hp1 hp2 hid hs h1 h2 hnot1 hnot2
    rcases hs with h | h | h | h
    · exact combineTwo_sharedAA w1 w2 hp1 hp2 hid h h1
        (fun hx => h2 (h.symm.trans hx)) (fun hx => hnot1 ⟨h, hx⟩)
    · exact combineTwo_sharedAB w1 w2 hp1 hp2 hid h h1
        (fun hx => h2 (hx.symm.trans h)) (fun hx => hnot2 ⟨h, hx⟩)
    · exact combineTwo_sharedBA w1 w2 hp1 hp2 hid h h1
        (fun hx => hnot2 ⟨hx, h⟩) (fun hx => h2 (h.symm.trans hx))
    · exact combineTwo_sharedBB w1 w2 hp1 hp2 hid h h1
        (fun hx => hnot1 ⟨hx, h⟩) (fun hx => h2 (hx.symm.trans h))
  · intro w1 w2 hp1 hp2 hid haa hab hba hbb
    exact combineTwo_noshare w1 w2 hp1 hp2 hid haa hab hba hbb
  · intro w
    simp only [bboxOf, List.map_cons, List.map_nil, qMin, qMax, List.foldl_nil,
      Prod.mk.injEq]
    constructor
    · intro h
      exact ⟨min_eq_left_iff.mp h.1, min_eq_left_iff.mp h.2.1⟩
    · intro h
      rw [min_eq_left h.1, min_eq_left h.2, max_eq_right h.1, max_eq_right h.2]
      simp

/-- The first wall of the claim's concrete scenario: a plain wall
(0,0)-(10,0). -/
def wallA_C3 : WallDoc :=
  ⟨1, 0, 0, 10, 0, WALL_DOOR_TYPES_NONE, WALL_DIRECTIONS_BOTH,
    WALL_SENSE_TYPES_NORMAL, WALL_SENSE_TYPES_NORMAL, WALL_SENSE_TYPES_NORMAL,
    WALL_MOVEMENT_TYPES_NORMAL, false, none, none, none⟩

/-- The second wall of the claim's concrete scenario: a plain wall
(10,0)-(20,0). -/
def wallB_C3 : WallDoc :=
  ⟨2, 10, 0, 20, 0, WALL_DOOR_TYPES_NONE, WALL_DIRECTIONS_BOTH,
    WALL_SENSE_TYPES_NORMAL, WALL_SENSE_TYPES_NORMAL, WALL_SENSE_TYPES_NORMAL,
    WALL_MOVEMENT_TYPES_NORMAL, false, none, none, none⟩

theorem combineWalls_C3_witness :
    isPlain wallA_C3 = true ∧ isPlain wallB_C3 = true ∧
    wallA_C3.id ≠ wallB_C3.id ∧
    (keyA wallA_C3 = keyA wallB_C3 ∨ keyA wallA_C3 = keyB wallB_C3 ∨
      keyB wallA_C3 = keyA wallB_C3 ∨ keyB wallA_C3 = keyB wallB_C3) ∧
    keyA wallA_C3 ≠ keyB wallA_C3 ∧ keyA wallB_C3 ≠ keyB wallB_C3 ∧
    ¬(keyA wallA_C3 = keyA wallB_C3 ∧ keyB wallA_C3 = keyB wallB_C3) ∧
    ¬(keyA wallA_C3 = keyB wallB_C3 ∧ keyB wallA_C3 = keyA wallB_C3) ∧
    combineSceneWalls [wallA_C3, wallB_C3] = [(0, 0, 20, 0)] := by
  have hd1 : wallDir wallA_C3 = 0 := wallDir_horizontal _ rfl
  have hd2 : wallDir wallB_C3 = 0 := wallDir_horizontal _ rfl
  have hka1 : keyA wallA_C3 = (0, 0, 0) := by
    unfold keyA
    rw [hd1]
    unfold jsMathRound wallA_C3
    norm_num
  have hkb1 : keyB wallA_C3 = (10, 0, 0) := by
    unfold keyB
    rw [hd1]
    unfold jsMathRound wallA_C3
    norm_num
  have hka2 : keyA wallB_C3 = (10, 0, 0) := by
    unfold keyA
    rw [hd2]
    unfold jsMathRound wallB_C3
    norm_num
  have hkb2 : keyB wallB_C3 = (20, 0, 0) := by
    unfold keyB
    rw [hd2]
    unfold jsMathRound wallB_C3
    norm_num
  have hmain := combineWalls_C3.1 wallA_C3 wallB_C3 (by decide) (by decide)
    (by decide)
    (Or.inr (Or.inr (Or.inl (by rw [hkb1, hka2]))))
    (by rw [hka1, hkb1]; decide)
    (by rw [hka2, hkb2]; decide)
    (by rw [hka1, hka2, hkb1, hkb2]; decide)
    (by rw [hka1, hkb2, hkb1, hka2]; decide)
  refine ⟨by decide, by decide, by decide,
    Or.inr (Or.inr (Or.inl (by rw [hkb1, hka2]))),
    by rw [hka1, hkb1]; decide, by rw [hka2, hkb2]; decide,
    by rw [hka1, hka2, hkb1, hkb2]; decide,
    by rw [hka1, hkb2, hkb1, hka2]; decide, ?_⟩
  rw [hmain]
  norm_num [wallA_C3, wallB_C3]

/-- C3 counterexample: two plain walls sharing no rounded endpoint, the
first with unsorted coordinates (10,0)-(0,0), the second (0,50)-(10,50).
The output is the per-wall bounding boxes [(0,0,10,0), (0,50,10,50)], so
the first output differs from the first input segment: the outputs are
not the unchanged inputs. -/
theorem combineWalls_bbox_cex_C3 :
    combineSceneWalls
        [⟨1, 10, 0, 0, 0, 0, 0, 20, 20, 20, 20, false, none, none, none⟩,
         ⟨2, 0, 50, 10, 50, 0, 0, 20, 20, 20, 20, false, none, none, none⟩] ≠
      [((10:ℚ), (0:ℚ), (0:ℚ), (0:ℚ)), (0, 50, 10, 50)] := by
  have hd1 : wallDir ⟨1, 10, 0, 0, 0, 0, 0, 20, 20, 20, 20, false, none, none, none⟩ = 0 :=
    wallDir_horizontal _ rfl
  have hd2 : wallDir ⟨2, 0, 50, 10, 50, 0, 0, 20, 20, 20, 20, false, none, none, none⟩ = 0 :=
    wallDir_horizontal _ rfl
  have hka1 : keyA ⟨1, 10, 0, 0, 0, 0, 0, 20, 20, 20, 20, false, none, none, none⟩ = (10, 0, 0) := by
    unfold keyA
    rw [hd1]
    unfold jsMathRound
    norm_num
  have hkb1 : keyB ⟨1, 10, 0, 0, 0, 0, 0, 20, 20, 20, 20, false, none, none, none⟩ = (0, 0, 0) := by
    unfold keyB
    rw [hd1]
    unfold jsMathRound
    norm_num
  have hka2 : keyA ⟨2, 0, 50, 10, 50, 0, 0, 20, 20, 20, 20, false, none, none, none⟩ = (0, 50, 0) := by
    unfold keyA
    rw [hd2]
    unfold jsMathRound
    norm_num
  have hkb2 : keyB ⟨2, 0, 50, 10, 50, 0, 0, 20, 20, 20, 20, false, none, none, none⟩ = (10, 50, 0) := by
    unfold keyB
    rw [hd2]
    unfold jsMathRound
    norm_num
  have h := combineTwo_noshare
    ⟨1, 10, 0, 0, 0, 0, 0, 20, 20, 20, 20, false, none, none, none⟩
    ⟨2, 0, 50, 10, 50, 0, 0, 20, 20, 20, 20, false, none, none, none⟩
    (by decide) (by decide) (by decide)
    (by rw [hka1, hka2]; decide) (by rw [hka1, hkb2]; decide)
    (by rw [hkb1, hka2]; decide) (by rw [hkb1, hkb2]; decide)
  rw [h]
  intro heq
  rw [List.cons.injEq, Prod.mk.injEq] at heq
  have h1 := heq.1.1
  norm_num at h1
